import Mathlib

/-!
Verification of the SARIF report generator (`sarif_report.py`) and the PR
comment upserter (`comment_pr.py`) of this repository.

The Python code is shallowly embedded: parsed JSON documents become the
`Json` inductive below, Python dictionary access / truthiness / iteration
become the `pyGet` / `truthy` / `pyIter` functions (returning `Except` where
the Python operation can raise), and every function of the two scripts is
translated definition by definition.  Machine strings are Lean `String`
values; operations on them are written over `List Char` so that everything
evaluates inside the kernel.
-/

/-! ## Definitions: embedded data model and operations -/

/-- Decides whether `p` is a prefix of `l` (elementwise equality of `Char`). -/
def isPre : List Char → List Char → Bool
  | [], _ => true
  | _ :: _, [] => false
  | a :: as, b :: bs => a == b && isPre as bs

/-- Decides whether `pat` occurs as a contiguous substring of `l`; this is the
model of Python's `in` operator on strings and of `str.find`-based search. -/
def hasSub (pat : List Char) : List Char → Bool
  | [] => pat.isEmpty
  | c :: t => isPre pat (c :: t) || hasSub pat t

/-- Part of `l` after the first occurrence of `pat`, if any; models
Python's `s.split(pat, 1)[1]` under the guard `pat in s`. -/
def afterFirst (pat : List Char) : List Char → Option (List Char)
  | [] => if pat.isEmpty then some [] else none
  | c :: t => if isPre pat (c :: t) then some ((c :: t).drop pat.length) else afterFirst pat t

/-- ASCII lower-casing of one character; models `str.lower` for the ASCII
range (the inputs of interest are ASCII severity levels). -/
def lowerCh (c : Char) : Char :=
  if 'A' ≤ c ∧ c ≤ 'Z' then Char.ofNat (c.toNat + 32) else c

/-- ASCII model of Python `str.lower`. -/
def lowerStr (s : String) : String := String.mk (s.data.map lowerCh)

/-- Python `str.isspace` characters in the ASCII range. -/
def isSpaceCh (c : Char) : Bool :=
  c == ' ' || c == '\t' || c == '\n' || c == '\r' || c == Char.ofNat 11 || c == Char.ofNat 12

/-- Model of Python `str.strip()`: drop whitespace from both ends. -/
def pyStrip (s : String) : String :=
  String.mk (((s.data.dropWhile isSpaceCh).reverse.dropWhile isSpaceCh).reverse)

/-- Decimal digit character: `digitCh d` is the character for `d % 10`. -/
def digitCh (d : Nat) : Char := Char.ofNat (48 + d % 10)

/-- Digit recursion with explicit fuel (one unit per digit, `n + 1` is
ample), structurally recursive so that it evaluates inside the kernel. -/
def natDigitsGo : Nat → Nat → List Char
  | 0, _ => []
  | fuel + 1, n =>
    if n < 10 then [digitCh n]
    else natDigitsGo fuel (n / 10) ++ [digitCh (n % 10)]

/-- Decimal digits of a natural number, most significant first. -/
def natDigits (n : Nat) : List Char := natDigitsGo (n + 1) n

/-- Model of Python `str(n)` for a natural number. -/
def natStr (n : Nat) : String := String.mk (natDigits n)

/-- Model of Python `str(i)` for an integer. -/
def intStr (i : Int) : String :=
  if i < 0 then "-" ++ natStr i.natAbs else natStr i.toNat

/-- Insertion into a `le`-sorted list, keeping stability. -/
def insertLe {α : Type} (le : α → α → Bool) (a : α) : List α → List α
  | [] => [a]
  | b :: t => if le a b then a :: b :: t else b :: insertLe le a t

/-- Stable insertion sort; models Python `sorted` (both are stable, and the
lists sorted in the scripts have pairwise-distinct keys). -/
def sortLe {α : Type} (le : α → α → Bool) : List α → List α
  | [] => []
  | a :: t => insertLe le a (sortLe le t)

/-- Lexicographic strict comparison of character lists by code point; models
Python `<` on strings. -/
def listLtCh : List Char → List Char → Bool
  | [], [] => false
  | [], _ :: _ => true
  | _ :: _, [] => false
  | a :: as, b :: bs =>
    if a.toNat < b.toNat then true
    else if b.toNat < a.toNat then false
    else listLtCh as bs

/-- Non-strict string comparison used to model Python `sorted` on strings. -/
def strLeB (a b : String) : Bool := !(listLtCh b.data a.data)

/-- First-occurrence deduplication helper (`seen` accumulates keys). -/
def uniqFirstGo (seen : List String) : List String → List String
  | [] => []
  | x :: t => if x ∈ seen then uniqFirstGo seen t else x :: uniqFirstGo (x :: seen) t

/-- Distinct elements of `l` in first-occurrence order; models the key set of
a Python dict built by insertion. -/
def uniqFirst (l : List String) : List String := uniqFirstGo [] l

/-- Model of Python `sep.join(xs)`. -/
def joinSep (sep : String) : List String → String
  | [] => ""
  | [x] => x
  | x :: y :: t => x ++ sep ++ joinSep sep (y :: t)

/-- Parsed JSON value as produced by Python `json.loads`.  Numbers are
modeled as integers (the SARIF fields used by the scripts are integers);
object key lists model dicts with unique keys, which is what `json.loads`
yields (a duplicated key keeps only the last value). -/
inductive Json where
  | null
  | bool (b : Bool)
  | num (n : Int)
  | str (s : String)
  | arr (xs : List Json)
  | obj (kvs : List (String × Json))
  deriving BEq

/-- Python truthiness of a parsed JSON value. -/
def truthy : Json → Bool
  | .null => false
  | .bool b => b
  | .num n => n != 0
  | .str s => !s.isEmpty
  | .arr xs => !xs.isEmpty
  | .obj kvs => !kvs.isEmpty

/-- Model of Python `a or b` (returns `a` when truthy, else `b`). -/
def pyOr (a b : Json) : Json := if truthy a then a else b

/-- First binding of `key` in an association list (dict keys are unique). -/
def lookupKey : List (String × Json) → String → Option Json
  | [], _ => none
  | (k, v) :: t, key => if k = key then some v else lookupKey t key

/-- Model of Python `d.get(key)`: `None` when the key is absent, and an
`AttributeError` when the receiver is not a dict. -/
def pyGet (j : Json) (key : String) : Except String Json :=
  match j with
  | .obj kvs => .ok ((lookupKey kvs key).getD .null)
  | _ => .error "AttributeError"

/-- Model of Python iteration `for x in j`: lists yield their elements,
dicts their keys, strings their characters; other values raise `TypeError`.
(The scripts only reach this after an `or []` default, so a falsy value has
already been replaced by a list.) -/
def pyIter : Json → Except String (List Json)
  | .arr xs => .ok xs
  | .obj kvs => .ok (kvs.map (fun p => .str p.1))
  | .str s => .ok (s.data.map (fun c => .str (String.mk [c])))
  | _ => .error "TypeError"

/-- Model of Python `j[0]`: first element of a list or string; a dict raises
`KeyError` (JSON object keys are strings, never the integer `0`), other
values raise `TypeError`. -/
def pyIndex0 : Json → Except String Json
  | .arr (x :: _) => .ok x
  | .arr [] => .error "IndexError"
  | .str s =>
    match s.data with
    | c :: _ => .ok (.str (String.mk [c]))
    | [] => .error "IndexError"
  | .obj _ => .error "KeyError"
  | _ => .error "TypeError"

mutual

/-- Model of Python `repr` on parsed JSON values, used by `str` for lists
and dicts.  String quoting always uses a single quote; CPython switches to
double quotes only for strings containing a single quote, an unreachable
corner for every property proved below. -/
def pyRepr : Json → String
  | .null => "None"
  | .bool true => "True"
  | .bool false => "False"
  | .num n => intStr n
  | .str s => "\x27" ++ s ++ "\x27"
  | .arr xs => "[" ++ pyReprL xs ++ "]"
  | .obj kvs => "\x7b" ++ pyReprKV kvs ++ "\x7d"

/-- Comma-joined reprs of list elements. -/
def pyReprL : List Json → String
  | [] => ""
  | [x] => pyRepr x
  | x :: y :: t => pyRepr x ++ ", " ++ pyReprL (y :: t)

/-- Comma-joined reprs of dict entries. -/
def pyReprKV : List (String × Json) → String
  | [] => ""
  | [(k, v)] => "\x27" ++ k ++ "\x27: " ++ pyRepr v
  | (k, v) :: p :: t => "\x27" ++ k ++ "\x27: " ++ pyRepr v ++ ", " ++ pyReprKV (p :: t)

end

/-- Model of Python `str(x)` / f-string interpolation of a parsed JSON
value. -/
def pyStrOf : Json → String
  | .null => "None"
  | .bool true => "True"
  | .bool false => "False"
  | .num n => intStr n
  | .str s => s
  | .arr xs => pyRepr (.arr xs)
  | .obj kvs => pyRepr (.obj kvs)

/-- Model of Python `isinstance(x, int)` on parsed JSON: both numbers and
booleans qualify (`bool` is a subclass of `int` in Python). -/
def isIntLike : Json → Bool
  | .num _ => true
  | .bool _ => true
  | _ => false

/-- Numeric value of an int-like JSON value (`True` counts as 1). -/
def intVal : Json → Int
  | .num n => n
  | .bool true => 1
  | .bool false => 0
  | _ => 0

/-- Python `==` between two int-like values (numeric comparison, so
`True == 1`). -/
def intLikeEq (a b : Json) : Bool := intVal a == intVal b

/-- Model of Python `==` on parsed JSON values.  Scalars compare by value
with the numeric `bool`/`int` cross rule; values of different non-numeric
kinds compare unequal; lists and dicts fall back to structural equality
(Python compares dicts order-insensitively, equivalent here because
`json.loads` output has a canonical entry order). -/
def pyEq (a b : Json) : Bool :=
  match a, b with
  | .null, .null => true
  | .bool x, .bool y => x == y
  | .bool _, .num _ => intLikeEq a b
  | .num _, .bool _ => intLikeEq a b
  | .num x, .num y => x == y
  | .str x, .str y => x == y
  | .arr xs, .arr ys => Json.arr xs == Json.arr ys
  | .obj xs, .obj ys => Json.obj xs == Json.obj ys
  | _, _ => false

/-- Environment variables read by `sarif_report.py`; the empty string models
an unset variable (the script reads each one through `or`-defaulting, under
which unset and empty are indistinguishable). -/
structure Env where
  githubRepository : String
  githubWorkspace : String
  githubServerUrl : String
  githubSha : String

/-- Replacement of every occurrence of the character `needle` by `rep`;
models Python `str.replace` with a one-character needle (a single
left-to-right pass). -/
def replaceC (needle : Char) (rep : List Char) : List Char → List Char
  | [] => []
  | c :: t => (if c = needle then rep else [c]) ++ replaceC needle rep t

/-- Model of `html.escape(s, quote=True)` on the character list: the five
sequential replacements performed by the CPython implementation, ampersand
first. -/
def escData (l : List Char) : List Char :=
  replaceC (Char.ofNat 39) "&#x27;".data
    (replaceC '"' "&quot;".data
      (replaceC '>' "&gt;".data
        (replaceC '<' "&lt;".data
          (replaceC '&' "&amp;".data l))))

/-- Model of `_esc`: `html.escape(s or "")` (the argument is always a string
row field, for which `s or ""` is the identity). -/
def esc (s : String) : String := String.mk (escData s.data)

/-- Model of `_norm_level`.  The argument is the raw JSON `level` value
(`Json.null` when the key is absent); a truthy non-string raises
`AttributeError` at `.lower()` exactly as in Python. -/
def normLevel (level : Json) : Except String String :=
  if !truthy level then .ok "warning"
  else
    match level with
    | .str s =>
      let l := lowerStr s
      if l = "info" then .ok "note"
      else if !(l = "none" || l = "note" || l = "warning" || l = "error") then .ok "warning"
      else .ok l
    | _ => .error "AttributeError"

/-- Model of `_tool_name`: `(run.get("tool") or {}).get("driver") or {}`,
then `.get("name") or "tool"`.  The returned JSON value is the raw `name`
(a string for schema-conforming input). -/
def toolName (run : Json) : Except String Json := do
  let t ← pyGet run "tool"
  let d ← pyGet (pyOr t (.obj [])) "driver"
  let n ← pyGet (pyOr d (.obj [])) "name"
  pure (pyOr n (.str "tool"))

/-- Loop body of `_rule_help`: scan the catalog for the first entry whose
`or`-defaulted id equals `rule_id` and return its `or`-defaulted
`helpUri`. -/
def ruleHelpLoop (ruleId : Json) : List Json → Except String Json
  | [] => .ok (.str "")
  | r :: t => do
    let idv ← pyGet r "id"
    if pyEq (pyOr idv (.str "")) ruleId then
      let h ← pyGet r "helpUri"
      pure (pyOr h (.str ""))
    else ruleHelpLoop ruleId t

/-- Model of `_rule_help`. -/
def ruleHelp (run : Json) (ruleId : Json) : Except String Json := do
  let t ← pyGet run "tool"
  let d ← pyGet (pyOr t (.obj [])) "driver"
  let rs ← pyGet (pyOr d (.obj [])) "rules"
  let items ← pyIter (pyOr rs (.arr []))
  ruleHelpLoop ruleId items

/-- Model of `_msg_text`: `((res.get("message") or {}).get("text") or
"").strip()`. -/
def msgText (res : Json) : Except String String := do
  let m ← pyGet res "message"
  let t ← pyGet (pyOr m (.obj [])) "text"
  match pyOr t (.str "") with
  | .str s => pure (pyStrip s)
  | _ => .error "AttributeError"

/-- Sorted `field=value` rendering of a fingerprint dict: the body of
`"|".join(f"{x}={d[x]}" for x in sorted(d))`. -/
def fpItems (kvs : List (String × Json)) : String :=
  joinSep "|"
    ((sortLe strLeB (kvs.map Prod.fst)).map
      (fun k => k ++ "=" ++ pyStrOf ((lookupKey kvs k).getD .null)))

/-- Key contributed by one fingerprint mapping when it is a non-empty dict
(the `isinstance(d, dict) and d` guard of `_best_fingerprint`). -/
def fpOf (kind : String) (d : Json) : Option String :=
  match d with
  | .obj kvs => if kvs.isEmpty then none else some (kind ++ ":" ++ fpItems kvs)
  | _ => none

/-- Model of `_best_fingerprint`. -/
def bestFingerprint (res : Json) : Except String String := do
  let cg ← pyGet res "correlationGuid"
  if truthy cg then
    pure ("cg:" ++ pyStrOf cg)
  else do
    let d1 ← pyGet res "fingerprints"
    match fpOf "fingerprints" d1 with
    | some s => pure s
    | none => do
      let d2 ← pyGet res "partialFingerprints"
      match fpOf "partialFingerprints" d2 with
      | some s => pure s
      | none => pure ""

/-- Model of `urllib.parse.urlparse(s).path` for a string beginning with
"file://": characters after the netloc (which runs to the first of
`/`, `?` or `#`), cut at the fragment and query markers.  The `file` scheme
is not in `uses_params`, so no `;params` splitting happens. -/
def urlPathOf (s : String) : String :=
  let rest := s.data.drop 7
  let afterNet := rest.dropWhile (fun c => !(c == '/' || c == '?' || c == '#'))
  let noFrag := afterNet.takeWhile (fun c => c != '#')
  String.mk (noFrag.takeWhile (fun c => c != '?'))

/-- Last `/`-separated component of `s`; models `s.split("/")[-1]`. -/
def lastSlashSeg (s : String) : List Char :=
  (s.data.reverse.takeWhile (fun c => c != '/')).reverse

/-- Model of `_normalize_artifact_uri`.  The argument is the `or`-defaulted
`uri` value; a truthy non-string raises `AttributeError` at
`.startswith`. -/
def normalizeArtifactUri (env : Env) (uriJ : Json) : Except String String :=
  if !truthy uriJ then .ok ""
  else
    match uriJ with
    | .str uri0 =>
      let u1 := if isPre "file://".data uri0.data then urlPathOf uri0 else uri0
      let l1 := u1.data.map (fun c => if c = '\\' then '/' else c)
      let repo := lastSlashSeg env.githubRepository
      let ws := (env.githubWorkspace.data.map
        (fun c => if c = '\\' then '/' else c)).reverse.dropWhile (fun c => c == '/')
        |>.reverse
      let l2 := if !ws.isEmpty && isPre (ws ++ ['/']) l1 then l1.drop (ws.length + 1) else l1
      let marker := '/' :: (repo ++ ['/'])
      let l3 := match afterFirst marker l2 with
        | some restPart => restPart
        | none => l2
      .ok (String.mk (l3.dropWhile (fun c => c == '/')))
    | _ => .error "AttributeError"

/-- Model of `_extract_location`; the middle component is the raw `line`
value (`Json.null` models Python `None`, an int-like JSON value models an
integer `startLine`). -/
def extractLocation (env : Env) (res : Json) : Except String (String × Json × String) := do
  let locsv ← pyGet res "locations"
  if !truthy (pyOr locsv (.arr [])) then
    pure ("", .null, "")
  else do
    let first ← pyIndex0 (pyOr locsv (.arr []))
    let plv ← pyGet first "physicalLocation"
    let alv ← pyGet (pyOr plv (.obj [])) "artifactLocation"
    let uriv ← pyGet (pyOr alv (.obj [])) "uri"
    let path ← normalizeArtifactUri env (pyOr uriv (.str ""))
    let regv ← pyGet (pyOr plv (.obj [])) "region"
    let sl ← pyGet (pyOr regv (.obj [])) "startLine"
    let el ← pyGet (pyOr regv (.obj [])) "endLine"
    pure (path,
      if isIntLike sl then sl else Json.null,
      if isIntLike sl then
        if !isIntLike el || intLikeEq el sl then "L" ++ pyStrOf sl
        else "L" ++ pyStrOf sl ++ "-L" ++ pyStrOf el
      else "")

/-- Model of `_github_line_url`. -/
def githubLineUrl (env : Env) (path : String) (line : Json) : String :=
  let server0 := if env.githubServerUrl = "" then "https://github.com" else env.githubServerUrl
  let server := String.mk (server0.data.reverse.dropWhile (fun c => c == '/') |>.reverse)
  let repo := env.githubRepository
  let sha := env.githubSha
  if !(repo ≠ "" && sha ≠ "" && path ≠ "") then ""
  else
    let url := server ++ "/" ++ repo ++ "/blob/" ++ sha ++ "/" ++ path
    if truthy line then url ++ "#L" ++ pyStrOf line else url

/-- One finding row, the dict built by `sarif_to_rows`.  Every field is
stored as the string the script would render; the source keeps the raw JSON
values for `tool`, `rule` and `help`, which are strings for
schema-conforming input (a non-string there would later make the renderer
raise, a corner no property below depends on). -/
structure Row where
  tool : String
  level : String
  rule : String
  message : String
  path : String
  line : String
  region : String
  help : String
  ghUrl : String
  dedupeKey : String

/-- Dedupe key expression of `sarif_to_rows`: `f"{tool}|{rule}|{fp}"` when
the fingerprint is non-empty, else the fallback composite
`f"{tool}|{rule}|{path2}|{line or ''}|{level}"`. -/
def dedupeKeyOf (tool rule : Json) (fp : String) (path : String) (line : Json)
    (level : String) : String :=
  if fp ≠ "" then pyStrOf tool ++ "|" ++ pyStrOf rule ++ "|" ++ fp
  else
    pyStrOf tool ++ "|" ++ pyStrOf rule ++ "|" ++ path ++ "|" ++
      pyStrOf (pyOr line (.str "")) ++ "|" ++ level

/-- Loop body of `sarif_to_rows` for one result of one run. -/
def rowOfResult (env : Env) (run : Json) (tool : Json) (res : Json) :
    Except String Row := do
  let levelv ← pyGet res "level"
  let level ← normLevel levelv
  let rulev ← pyGet res "ruleId"
  let msg ← msgText res
  let loc ← extractLocation env res
  let helpUri ← ruleHelp run (pyOr rulev (.str ""))
  let fp ← bestFingerprint res
  pure
    { tool := pyStrOf tool
      level := level
      rule := pyStrOf (pyOr rulev (.str ""))
      message := msg
      path := loc.1
      line := if truthy loc.2.1 then pyStrOf loc.2.1 else ""
      region := loc.2.2
      help := pyStrOf helpUri
      ghUrl := githubLineUrl env loc.1 loc.2.1
      dedupeKey := dedupeKeyOf tool (pyOr rulev (.str "")) fp loc.1 loc.2.1 level }

/-- Inner loop of `sarif_to_rows` over the results of one run. -/
def rowsOfRun (env : Env) (run : Json) : Except String (List Row) := do
  let tool ← toolName run
  let resv ← pyGet run "results"
  let items ← pyIter (pyOr resv (.arr []))
  items.mapM (rowOfResult env run tool)

/-- Model of `sarif_to_rows` on an already-parsed document. -/
def sarifToRows (env : Env) (sarif : Json) : Except String (List Row) := do
  let runsv ← pyGet sarif "runs"
  let runs ← pyIter (pyOr runsv (.arr []))
  let blocks ← runs.mapM (rowsOfRun env)
  pure blocks.flatten

/-- Recursion of `dedupe_rows` with the `seen` set of already-kept keys. -/
def dedupeRowsGo (seen : List String) : List Row → List Row
  | [] => []
  | r :: rs =>
    if r.dedupeKey ∈ seen then dedupeRowsGo seen rs
    else r :: dedupeRowsGo (r.dedupeKey :: seen) rs

/-- Model of `dedupe_rows`. -/
def dedupeRows (rows : List Row) : List Row := dedupeRowsGo [] rows

/-- Count of rows at one severity; models `Counter(r["level"] for r in
rows).get(lvl, 0)`. -/
def countLevel (rows : List Row) (lvl : String) : Nat :=
  (rows.filter (fun r => r.level == lvl)).length

/-- Count of rows of one tool at one severity; models the per-tool counter
`tc.get(lvl, 0)` (the counter ranges over all severity groups of the
tool). -/
def countToolLevel (rows : List Row) (tool lvl : String) : Nat :=
  (rows.filter (fun r => r.tool == tool && r.level == lvl)).length

/-- `SEV_ORDER` of the script. -/
def sevOrder : List String := ["error", "warning", "note", "none"]

/-- `SEV_EMOJI` of the script. -/
def sevEmoji (sev : String) : String :=
  if sev = "error" then "🔴"
  else if sev = "warning" then "🟡"
  else if sev = "note" then "🔵"
  else "⚫"

/-- `SEV_LABEL` of the script. -/
def sevLabel (sev : String) : String :=
  if sev = "error" then "Errors"
  else if sev = "warning" then "Warnings"
  else if sev = "note" then "Notes"
  else "None"

/-- Tools of the grouped dict in iteration order of `sorted(grouped)`:
distinct tool names sorted ascending (keys are distinct, so stability is
irrelevant and insertion sort agrees with Python `sorted`). -/
def toolsOf (rows : List Row) : List String :=
  sortLe strLeB (uniqFirst (rows.map (fun r => r.tool)))

/-- Header count line of the report. -/
def headerLine (rows : List Row) : String :=
  "<p>🔴 " ++ natStr (countLevel rows "error") ++
  " 🟡 " ++ natStr (countLevel rows "warning") ++
  " 🔵 " ++ natStr (countLevel rows "note") ++
  " Total: " ++ natStr rows.length ++ "</p>"

/-- Per-tool summary line of the report. -/
def toolSummaryLine (rows : List Row) (tool : String) : String :=
  "<summary>🧰 <b>" ++ esc tool ++ "</b> — 🔴 " ++
  natStr (countToolLevel rows tool "error") ++
  " 🟡 " ++ natStr (countToolLevel rows tool "warning") ++
  " 🔵 " ++ natStr (countToolLevel rows tool "note") ++ "</summary>"

/-- Table row rendered for one finding. -/
def renderRow (r : Row) : String :=
  let loc := esc (r.path ++ (if r.line ≠ "" then ":" ++ r.line else ""))
  let link := if r.ghUrl ≠ "" then "<a href=\"" ++ esc r.ghUrl ++ "\">🔗</a>" else ""
  "<tr>" ++ "<td><code>" ++ esc r.rule ++ "</code></td>" ++
  "<td>" ++ loc ++ "<br><small>" ++ esc r.region ++ "</small></td>" ++
  "<td>" ++ link ++ "</td>" ++
  "<td>" ++ esc r.message ++ "</td>" ++ "</tr>"

/-- Lines produced for one severity group of one tool; empty when the group
is empty. -/
def sevSection (rows : List Row) (tool sev : String) : List String :=
  if (rows.filter (fun r => r.tool == tool && r.level == sev)).isEmpty then []
  else
    ["<details>",
     "<summary>" ++ sevEmoji sev ++ " " ++ sevLabel sev ++ " (" ++
       natStr (rows.filter (fun r => r.tool == tool && r.level == sev)).length ++
       ")</summary>",
     "<table>",
     "<tr><th>Rule</th><th>Location</th><th>Link</th><th>Message</th></tr>"] ++
    (rows.filter (fun r => r.tool == tool && r.level == sev)).map renderRow ++
    ["</table></details>"]

/-- Lines produced for one tool. -/
def toolSection (rows : List Row) (tool : String) : List String :=
  ["<details open>", toolSummaryLine rows tool] ++
  (sevOrder.map (sevSection rows tool)).flatten ++
  ["</details>"]

/-- Elements of the `out` list of `html_fragment_report`, in order. -/
def outLines (rows : List Row) (title : String) : List String :=
  ("<h2>" ++ esc title ++ "</h2>") :: headerLine rows ::
    ((toolsOf rows).map (toolSection rows)).flatten

/-- Model of `html_fragment_report`. -/
def htmlFragmentReport (rows : List Row) (title : String) : String :=
  joinSep "\n" (outLines rows title)

/-- Modelled from the spec: the plain-text digest appended to the CI step
summary.  No code under src/ produces it (`main` of `sarif_report.py` only
writes the HTML file); the spec attributes it to the reporter component,
whose remaining glue (the composite-action wrapper) is not included under
src/.  Per the spec it is a small fixed-format block of counts by severity
and the total for the deduplicated findings. -/
def textDigest (rows : List Row) : String :=
  "Errors: " ++ natStr (countLevel rows "error") ++ "\n" ++
  "Warnings: " ++ natStr (countLevel rows "warning") ++ "\n" ++
  "Notes: " ++ natStr (countLevel rows "note") ++ "\n" ++
  "Total: " ++ natStr rows.length ++ "\n"

/-- Model of `marker_for`: the hidden HTML marker embedding the comment
name. -/
def markerFor (name : String) : String := "<!-- pr-comment:" ++ name ++ " -->"

/-- Model of `build_body`: marker on top, then the content. -/
def buildBody (name content : String) : String :=
  markerFor name ++ "\n" ++ content ++ "\n"

/-- One issue comment as returned by the GitHub list endpoint. -/
structure PrComment where
  id : Nat
  body : String

/-- Model of `find_existing_comment`: first comment whose body contains the
marker.  The source pages through the listing 100 comments at a time; the
pages concatenate to the full list in order, so the first match over the
concatenation is the function's result (a successful listing is assumed, as
the claim under verification concerns the local decision logic). -/
def findExistingComment (comments : List PrComment) (marker : String) : Option PrComment :=
  comments.find? (fun c => hasSub marker.data c.body.data)

/-- CLI `--mode` of `comment_pr.py`. -/
inductive CommentMode where
  | create
  | update
  | upsert
  deriving DecidableEq

/-- One write call against the GitHub API: a comment creation (`POST`) or a
comment edit (`PATCH`). -/
inductive WriteOp where
  | post (body : String)
  | patch (id : Nat) (body : String)

/-- Model of `main` of `comment_pr.py` after CLI parsing: the exit code and
the list of write API calls performed, given the comments present on the
PR.  Body reading and PR-number derivation are abstracted to their results
(`rawContent`, `prNumber`); write requests are modeled as succeeding, which
is the branch the verified claim exercises. -/
def commentMain (mode : CommentMode) (name : String) (rawContent : String)
    (prNumber : Option Nat) (comments : List PrComment) :
    Except String (Nat × List WriteOp) := do
  let content := pyStrip rawContent
  if content = "" then
    throw "Empty comment body (provide body or body_file)"
  else
    match prNumber with
    | none => throw "Could not determine PR number."
    | some _ =>
      let marker := markerFor name
      let finalBody := buildBody name content
      let existing := findExistingComment comments marker
      match mode with
      | .create => pure (0, [.post finalBody])
      | _ =>
        match existing with
        | some c => pure (0, [.patch c.id finalBody])
        | none =>
          match mode with
          | .update => pure (0, [])
          | _ => pure (0, [.post finalBody])

/-- Concrete rows with equal fingerprint-based dedupe keys but different
levels, mirroring the end-to-end scenario of the spec. -/
def rowA : Row :=
  ⟨"t", "error", "r", "m1", "p", "3", "L3", "", "", "t|r|fingerprints:x=1"⟩

/-- Second row of the scenario: same key, different level and message. -/
def rowB : Row :=
  ⟨"t", "warning", "r", "m2", "p", "3", "L3", "", "", "t|r|fingerprints:x=1"⟩

/-- Environment with no GitHub variables set, for concrete evaluations. -/
def env0 : Env := ⟨"", "", "", ""⟩

/-- Concrete result carrying a correlation identifier together with a
fingerprint mapping. -/
def resCg : Json :=
  .obj [("ruleId", .str "r"), ("correlationGuid", .str "g"),
        ("fingerprints", .obj [("x", .str "1")])]

/-- Tests whether a JSON value is an object (a Python dict). -/
def isObjB : Json → Bool
  | .obj _ => true
  | _ => false

/-- Tests whether a JSON value is a string. -/
def isStrB : Json → Bool
  | .str _ => true
  | _ => false

/-- Total projection `d.get(k)` for an object, `null` otherwise; used to
state well-formedness and projections (the executable model raises through
`pyGet`). -/
def objGetD (j : Json) (k : String) : Json :=
  match j with
  | .obj kvs => (lookupKey kvs k).getD .null
  | _ => .null

/-- Loop guard of `_rule_help` on one catalog entry (an object):
`(r.get("id") or "") == rule_id`. -/
def ruleMatches (ruleId : Json) (r : Json) : Bool :=
  pyEq (pyOr (objGetD r "id") (.str "")) ruleId

/-- Run whose rule catalog has a single entry carrying a helpUri but no id. -/
def runNoId : Json :=
  .obj [("tool", .obj [("driver", .obj [("rules",
    .arr [.obj [("helpUri", .str "https://x")]])])])]

/-- Field `k` of the object `j` is absent, falsy, or satisfies `p`. -/
def fieldOk (j : Json) (k : String) (p : Json → Bool) : Bool :=
  !truthy (objGetD j k) || p (objGetD j k)

/-- Well-formed `message` value: an object whose `text` is falsy or a
string. -/
def msgWF (m : Json) : Bool := isObjB m && fieldOk m "text" isStrB

/-- Well-formed `artifactLocation`: an object whose `uri` is falsy or a
string. -/
def alWF (al : Json) : Bool := isObjB al && fieldOk al "uri" isStrB

/-- Well-formed `physicalLocation`: an object with well-formed
`artifactLocation` and an object `region` (when truthy). -/
def plWF (pl : Json) : Bool :=
  isObjB pl && fieldOk pl "artifactLocation" alWF && fieldOk pl "region" isObjB

/-- Well-formed location entry. -/
def locWF (loc : Json) : Bool :=
  isObjB loc && fieldOk loc "physicalLocation" plWF

/-- Well-formed `locations` value: a list whose first entry (the only one
the script reads) is well-formed. -/
def locsWF : Json → Bool
  | .arr [] => true
  | .arr (x :: _) => locWF x
  | _ => false

/-- Well-formed result object. -/
def resultWF (res : Json) : Bool :=
  isObjB res && fieldOk res "level" isStrB && fieldOk res "message" msgWF &&
    fieldOk res "locations" locsWF

/-- Well-formed `rules` catalog: a list of objects. -/
def rulesWF : Json → Bool
  | .arr rs => rs.all isObjB
  | _ => false

/-- Well-formed `driver` object. -/
def driverWF (d : Json) : Bool := isObjB d && fieldOk d "rules" rulesWF

/-- Well-formed `tool` object. -/
def toolWF (t : Json) : Bool := isObjB t && fieldOk t "driver" driverWF

/-- Well-formed `results` value: a list of well-formed results. -/
def resultsWF : Json → Bool
  | .arr rs => rs.all resultWF
  | _ => false

/-- Well-formed run object. -/
def runWF (run : Json) : Bool :=
  isObjB run && fieldOk run "tool" toolWF && fieldOk run "results" resultsWF

/-- Well-formed `runs` value: a list of well-formed runs. -/
def runsWF : Json → Bool
  | .arr rs => rs.all runWF
  | _ => false

/-- Well-formed SARIF document. -/
def docWF (doc : Json) : Bool := isObjB doc && fieldOk doc "runs" runsWF

/-- Results list of a run as iterated by the script (after `or []`
defaulting); the projection used to count findings. -/
def runResults (run : Json) : List Json :=
  match pyOr (objGetD run "results") (.arr []) with
  | .arr rs => rs
  | _ => []

/-- Runs list of a document as iterated by the script. -/
def docRuns (doc : Json) : List Json :=
  match pyOr (objGetD doc "runs") (.arr []) with
  | .arr rs => rs
  | _ => []

/-- Document whose single run carries a truthy non-list `results` value. -/
def badResultsDoc : Json :=
  .obj [("runs", .arr [.obj [("results", .obj [("a", .null)])]])]

/-- Well-formed single-run document used as a witness input. -/
def wfDoc : Json :=
  .obj [("runs", .arr [.obj [
    ("tool", .obj [("driver", .obj [("name", .str "T")])]),
    ("results", .arr [.obj [("level", .str "error"),
      ("message", .obj [("text", .str "boom")]), ("ruleId", .str "R1")]])]])]

/-- Result with a single location built from a uri and a region object;
input constructor for the location-extraction properties. -/
def mkLocRes (uri : Json) (reg : Json) : Json :=
  .obj [("locations", .arr [.obj [("physicalLocation", .obj [
    ("artifactLocation", .obj [("uri", uri)]), ("region", reg)])]])]

/-- Result whose region carries both line and column data. -/
def colRegionRes : Json :=
  mkLocRes (.str "a.py") (.obj [("startLine", .num 12), ("endLine", .num 15),
    ("startColumn", .num 3), ("endColumn", .num 9)])

/-- Per-character expansion performed by the five replacements of
`html.escape`. -/
def escChar (c : Char) : List Char :=
  if c = '&' then "&amp;".data
  else if c = '<' then "&lt;".data
  else if c = '>' then "&gt;".data
  else if c = '"' then "&quot;".data
  else if c = Char.ofNat 39 then "&#x27;".data
  else [c]

/-- Decides whether `l` ends with `pat`. -/
def endsIn (l pat : List Char) : Bool := isPre pat.reverse l.reverse

/-- Safety of one output chunk: it contains no occurrence of the three
characters that open a script tag, and it does not end in a proper
non-empty prefix of them; safe chunks stay safe under concatenation. -/
def chunkOk (l : List Char) : Prop :=
  hasSub ['<', 's', 'c'] l = false ∧ endsIn l ['<'] = false ∧ endsIn l ['<', 's'] = false

instance chunkOkDecidable (l : List Char) : Decidable (chunkOk l) :=
  inferInstanceAs (Decidable (hasSub ['<', 's', 'c'] l = false ∧
    endsIn l ['<'] = false ∧ endsIn l ['<', 's'] = false))

/-! ## Theorems -/

theorem isPre_iff (p l : List Char) : isPre p l = true ↔ p <+: l := by
  induction p generalizing l with
  | nil => simp [isPre, List.nil_prefix]
  | cons a as ih =>
    cases l with
    | nil => simp [isPre]
    | cons b bs => simp [isPre, List.cons_prefix_cons, ih]

theorem hasSub_iff (pat l : List Char) : hasSub pat l = true ↔ pat <:+: l := by
  induction l with
  | nil =>
    simp [hasSub, List.infix_nil, List.isEmpty_iff]
  | cons c t ih =>
    simp [hasSub, List.infix_cons_iff, isPre_iff, ih, Bool.or_eq_true]

theorem isPre_append_right (p l m : List Char) (h : isPre p l = true) :
    isPre p (l ++ m) = true := by
  rw [isPre_iff] at h ⊢
  exact h.trans (List.prefix_append l m)

theorem hasSub_of_isPre (p l : List Char) (h : isPre p l = true) : hasSub p l = true := by
  cases l with
  | nil =>
    cases p with
    | nil => rfl
    | cons a as => simp [isPre] at h
  | cons c t => simp [hasSub, h]

theorem hasSub_append_left (p a b : List Char) (h : hasSub p a = true) :
    hasSub p (a ++ b) = true := by
  rw [hasSub_iff] at h ⊢
  exact h.trans (List.prefix_append a b).isInfix

theorem hasSub_append_right (p a b : List Char) (h : hasSub p b = true) :
    hasSub p (a ++ b) = true := by
  rw [hasSub_iff] at h ⊢
  exact h.trans (List.suffix_append a b).isInfix

theorem hasSub_self (p : List Char) : hasSub p p = true :=
  (hasSub_iff p p).mpr (List.infix_refl p)

theorem hasSub_trans (p q l : List Char) (h1 : hasSub p q = true)
    (h2 : hasSub q l = true) : hasSub p l = true := by
  rw [hasSub_iff] at h1 h2 ⊢
  exact h1.trans h2

theorem mem_of_isPre (p l : List Char) (h : isPre p l = true) : ∀ c ∈ p, c ∈ l := by
  rw [isPre_iff] at h
  exact fun c hc => h.subset hc

theorem mem_of_hasSub (p l : List Char) (h : hasSub p l = true) : ∀ c ∈ p, c ∈ l := by
  rw [hasSub_iff] at h
  exact fun c hc => h.subset hc

theorem digitCh_bound (d : Nat) : 48 ≤ (digitCh d).toNat ∧ (digitCh d).toNat ≤ 57 := by
  have h : d % 10 < 10 := Nat.mod_lt _ (by omega)
  unfold digitCh
  set m := d % 10 with hm
  interval_cases m <;> decide

theorem natDigitsGo_bound (fuel n : Nat) :
    ∀ c ∈ natDigitsGo fuel n, 48 ≤ c.toNat ∧ c.toNat ≤ 57 := by
  induction fuel generalizing n with
  | zero => intro c hc; cases hc
  | succ fuel ih =>
    intro c hc
    rw [natDigitsGo] at hc
    split at hc
    · simp at hc
      subst hc
      exact digitCh_bound n
    · rw [List.mem_append] at hc
      cases hc with
      | inl h => exact ih (n / 10) c h
      | inr h =>
        simp at h
        subst h
        exact digitCh_bound (n % 10)

theorem natDigits_bound (n : Nat) : ∀ c ∈ natDigits n, 48 ≤ c.toNat ∧ c.toNat ≤ 57 :=
  natDigitsGo_bound (n + 1) n

theorem mem_insertLe {α : Type} (le : α → α → Bool) (a x : α) (l : List α) :
    x ∈ insertLe le a l ↔ x = a ∨ x ∈ l := by
  induction l with
  | nil => simp [insertLe]
  | cons b t ih =>
    simp only [insertLe]
    split
    · simp only [List.mem_cons]
    · simp only [List.mem_cons, ih]
      tauto

theorem mem_sortLe {α : Type} (le : α → α → Bool) (x : α) (l : List α) :
    x ∈ sortLe le l ↔ x ∈ l := by
  induction l with
  | nil => simp [sortLe]
  | cons a t ih => simp [sortLe, mem_insertLe, ih]

theorem mem_uniqFirstGo (seen : List String) (l : List String) (x : String)
    (hx : x ∈ l) (hs : x ∉ seen) : x ∈ uniqFirstGo seen l := by
  induction l generalizing seen with
  | nil => cases hx
  | cons a t ih =>
    simp only [uniqFirstGo]
    rcases List.mem_cons.mp hx with rfl | hxt
    · rw [if_neg hs]
      exact List.mem_cons_self _ _
    · split
      · exact ih _ hxt hs
      · rcases Decidable.em (x = a) with rfl | hne
        · exact List.mem_cons_self _ _
        · refine List.mem_cons_of_mem _ (ih _ hxt ?_)
          simp [hne, hs]

theorem mem_uniqFirst (l : List String) (x : String) (hx : x ∈ l) : x ∈ uniqFirst l :=
  mem_uniqFirstGo [] l x hx (by simp)

theorem dedupeRowsGo_sublist (seen : List String) (rows : List Row) :
    List.Sublist (dedupeRowsGo seen rows) rows := by
  induction rows generalizing seen with
  | nil => simp [dedupeRowsGo]
  | cons r rs ih =>
    simp only [dedupeRowsGo]
    split
    · exact (ih seen).cons r
    · exact (ih (r.dedupeKey :: seen)).cons₂ r

theorem dedupeRowsGo_not_mem_seen (seen : List String) (rows : List Row) :
    ∀ r ∈ dedupeRowsGo seen rows, r.dedupeKey ∉ seen := by
  induction rows generalizing seen with
  | nil => simp [dedupeRowsGo]
  | cons r rs ih =>
    simp only [dedupeRowsGo]
    split
    · exact ih seen
    · intro x hx
      rcases List.mem_cons.mp hx with rfl | hxs
      · assumption
      · intro hmem
        exact ih (r.dedupeKey :: seen) x hxs (List.mem_cons_of_mem _ hmem)

theorem dedupeRowsGo_pairwise (seen : List String) (rows : List Row) :
    (dedupeRowsGo seen rows).Pairwise (fun a b => a.dedupeKey ≠ b.dedupeKey) := by
  induction rows generalizing seen with
  | nil => simp [dedupeRowsGo]
  | cons r rs ih =>
    simp only [dedupeRowsGo]
    split
    · exact ih seen
    · refine List.Pairwise.cons ?_ (ih (r.dedupeKey :: seen))
      intro b hb heq
      exact dedupeRowsGo_not_mem_seen _ _ b hb (heq ▸ List.mem_cons_self _ _)

theorem dedupeRowsGo_filter (seen : List String) (k : String) (rows : List Row) :
    (dedupeRowsGo seen rows).filter (fun r => r.dedupeKey == k) =
      if k ∈ seen then [] else (rows.filter (fun r => r.dedupeKey == k)).take 1 := by
  induction rows generalizing seen with
  | nil => simp [dedupeRowsGo]
  | cons r rs ih =>
    simp only [dedupeRowsGo]
    by_cases hrk : r.dedupeKey = k
    · subst hrk
      by_cases hseen : r.dedupeKey ∈ seen
      · rw [if_pos hseen, ih seen, if_pos hseen, List.filter_cons_of_pos (by simp)]
        simp [ih, hseen]
      · rw [if_neg hseen, if_neg hseen, List.filter_cons_of_pos (by simp),
          List.filter_cons_of_pos (by simp), ih (r.dedupeKey :: seen),
          if_pos (List.mem_cons_self _ _)]
        simp
    · have hfilt : ∀ l : List Row, (r :: l).filter (fun x => x.dedupeKey == k) =
          l.filter (fun x => x.dedupeKey == k) :=
        fun l => List.filter_cons_of_neg (by simp [hrk])
      by_cases hseen : r.dedupeKey ∈ seen
      · rw [if_pos hseen, ih seen, hfilt]
      · rw [if_neg hseen, hfilt, ih (r.dedupeKey :: seen), hfilt]
        by_cases hk : k ∈ seen
        · rw [if_pos hk, if_pos (List.mem_cons_of_mem _ hk)]
        · have hne : k ∉ r.dedupeKey :: seen := by
            simp only [List.mem_cons, hk, or_false]
            exact fun h => hrk h.symm
          rw [if_neg hk, if_neg hne]

/-- Claim C1: for every input list of findings, `dedupe_rows` returns a
subsequence of its input in which no two elements share a dedupe key,
retaining for each key exactly the first occurrence in source order;
consequently the output length is at most the input length. -/
theorem claim_c1_dedupe_first_occurrence (rows : List Row) :
    List.Sublist (dedupeRows rows) rows ∧
    (dedupeRows rows).Pairwise (fun a b => a.dedupeKey ≠ b.dedupeKey) ∧
    (∀ k, (dedupeRows rows).filter (fun r => r.dedupeKey == k) =
      (rows.filter (fun r => r.dedupeKey == k)).take 1) ∧
    (dedupeRows rows).length ≤ rows.length := by
  refine ⟨dedupeRowsGo_sublist [] rows, dedupeRowsGo_pairwise [] rows, ?_, ?_⟩
  · intro k
    have h := dedupeRowsGo_filter [] k rows
    simpa [dedupeRows] using h
  · exact (dedupeRowsGo_sublist [] rows).length_le

/-- Claim C4: severity normalization maps an absent level to warning,
"info" (up to case) to note, any value whose lower-casing lies outside
the set of the four known levels to warning, and otherwise passes the
lower-cased value through. -/
theorem claim_c4_severity_normalization :
    normLevel .null = .ok "warning" ∧
    ∀ s, normLevel (.str s) = .ok
      (if lowerStr s = "info" then "note"
       else if lowerStr s = "none" ∨ lowerStr s = "note" ∨ lowerStr s = "warning" ∨
         lowerStr s = "error" then lowerStr s
       else "warning") := by
  refine ⟨rfl, fun s => ?_⟩
  by_cases hs : s = ""
  · subst hs
    rfl
  · have hemp : s.isEmpty = false := by
      cases he : s.isEmpty
      · rfl
      · exact absurd ((String.isEmpty_iff s).mp he) hs
    have ht : truthy (.str s) = true := by
      simp [truthy, hemp]
    unfold normLevel
    rw [ht]
    simp only [Bool.not_true, Bool.false_eq_true, if_false]
    by_cases h1 : lowerStr s = "info"
    · simp [h1]
    · rw [if_neg h1, if_neg h1]
      by_cases h2 : lowerStr s = "none" ∨ lowerStr s = "note" ∨ lowerStr s = "warning" ∨
        lowerStr s = "error"
      · have hb : (lowerStr s = "none" || lowerStr s = "note" || lowerStr s = "warning" ||
            lowerStr s = "error") = true := by
          rcases h2 with h | h | h | h <;> simp [h]
        rw [if_pos h2]
        simp [hb]
      · have hb : (lowerStr s = "none" || lowerStr s = "note" || lowerStr s = "warning" ||
            lowerStr s = "error") = false := by
          push_neg at h2
          simp [h2.1, h2.2.1, h2.2.2.1, h2.2.2.2]
        rw [if_neg h2]
        simp [hb]

theorem str_data_eq (a b : String) (h : a.data = b.data) : a = b := by
  cases a with
  | mk ad =>
    cases b with
    | mk bd => exact congrArg String.mk h

/-- Claim C2: with identical tool, rule, path and line, two findings with
different normalized levels get distinct fallback dedupe keys (level is
part of the fallback key), while two results carrying the same non-empty
fingerprint/correlation key get equal dedupe keys regardless of path, line
and level, and the deduplicator keeps exactly the first of two rows whose
keys agree. -/
theorem claim_c2_level_asymmetry :
    (∀ tool rule path line l1 l2, l1 ≠ l2 →
      dedupeKeyOf tool rule "" path line l1 ≠ dedupeKeyOf tool rule "" path line l2) ∧
    (∀ tool rule fp path1 line1 l1 path2 line2 l2, fp ≠ "" →
      dedupeKeyOf tool rule fp path1 line1 l1 = dedupeKeyOf tool rule fp path2 line2 l2) ∧
    (∀ r1 r2 : Row, r1.dedupeKey = r2.dedupeKey → dedupeRows [r1, r2] = [r1]) := by
  refine ⟨?_, ?_, ?_⟩
  · intro tool rule path line l1 l2 hne heq
    apply hne
    unfold dedupeKeyOf at heq
    rw [if_neg (by simp), if_neg (by simp)] at heq
    have hd := congrArg String.data heq
    simp only [String.data_append, List.append_assoc] at hd
    exact str_data_eq _ _
      (List.append_cancel_left (List.append_cancel_left (List.append_cancel_left
        (List.append_cancel_left (List.append_cancel_left (List.append_cancel_left
          (List.append_cancel_left (List.append_cancel_left hd))))))))
  · intro tool rule fp path1 line1 l1 path2 line2 l2 hfp
    unfold dedupeKeyOf
    rw [if_pos hfp, if_pos hfp]
  · intro r1 r2 heq
    simp [dedupeRows, dedupeRowsGo, heq]

/-- Witness for claim C2 at concrete inputs. -/
theorem claim_c2_level_asymmetry_witness :
    dedupeKeyOf (.str "t") (.str "r") "" "p" (.num 3) "error" ≠
      dedupeKeyOf (.str "t") (.str "r") "" "p" (.num 3) "warning" ∧
    dedupeKeyOf (.str "t") (.str "r") "fingerprints:x=1" "p" (.num 3) "error" =
      dedupeKeyOf (.str "t") (.str "r") "fingerprints:x=1" "q" (.num 9) "warning" ∧
    dedupeRows [rowA, rowB] = [rowA] :=
  ⟨claim_c2_level_asymmetry.1 _ _ _ _ _ _ (by decide),
   claim_c2_level_asymmetry.2.1 _ _ _ _ _ _ _ _ _ (by decide),
   claim_c2_level_asymmetry.2.2 rowA rowB rfl⟩

/-- Claim C3 counterexample: for a result carrying correlation identifier
"g" under tool "t" and rule "r", the dedupe key is "t|r|cg:g", not the
namespaced identifier "cg:g" itself as the claim states. -/
theorem claim_c3_counterexample :
    ∃ row, rowOfResult env0 (.obj []) (.str "t") resCg = .ok row ∧
      row.dedupeKey = "t|r|cg:g" ∧ row.dedupeKey ≠ "cg:g" := by
  refine ⟨_, rfl, rfl, ?_⟩
  decide

theorem exceptBindOk {α β : Type} (a : α) (f : α → Except String β) :
    (Except.ok a >>= f) = f a := rfl

theorem exceptPure {α : Type} (a : α) : (pure a : Except String α) = .ok a := rfl

theorem cg_key_ne_empty (x : String) : ("cg:" ++ x) ≠ "" := by
  intro h
  have hd := congrArg String.data h
  rw [String.data_append] at hd
  simp at hd

/-- Claim C3 (amended): for every result whose correlation identifier is
truthy, the fingerprint-priority key is the identifier under the `cg:`
namespace, regardless of any fingerprint or partial-fingerprint mapping on
the result; the full dedupe key is the tool and rule joined with that
namespaced identifier, and the fallback composite is not used: the key does
not depend on path, line or level. -/
theorem claim_c3_amended (res : Json) (kvs : List (String × Json)) (g : Json)
    (hres : res = .obj kvs) (hg : lookupKey kvs "correlationGuid" = some g)
    (ht : truthy g = true) :
    bestFingerprint res = .ok ("cg:" ++ pyStrOf g) ∧
    (∀ tool rule path line level,
      dedupeKeyOf tool rule ("cg:" ++ pyStrOf g) path line level =
        pyStrOf tool ++ "|" ++ pyStrOf rule ++ "|" ++ ("cg:" ++ pyStrOf g)) ∧
    (∀ tool rule path line level path2 line2 level2,
      dedupeKeyOf tool rule ("cg:" ++ pyStrOf g) path line level =
        dedupeKeyOf tool rule ("cg:" ++ pyStrOf g) path2 line2 level2) := by
  refine ⟨?_, ?_, ?_⟩
  · subst hres
    simp only [bestFingerprint, pyGet, hg, Option.getD, exceptBindOk]
    rw [ht]
    simp [exceptPure]
  · intro tool rule path line level
    unfold dedupeKeyOf
    rw [if_pos (cg_key_ne_empty _)]
  · intro tool rule path line level path2 line2 level2
    unfold dedupeKeyOf
    rw [if_pos (cg_key_ne_empty _), if_pos (cg_key_ne_empty _)]

/-- Witness for the amended claim C3 at the concrete result `resCg`. -/
theorem claim_c3_amended_witness :
    bestFingerprint resCg = .ok ("cg:" ++ pyStrOf (.str "g")) ∧
    dedupeKeyOf (.str "t") (.str "r") ("cg:" ++ pyStrOf (.str "g")) "p" (.num 3) "error" =
      pyStrOf (.str "t") ++ "|" ++ pyStrOf (.str "r") ++ "|" ++ ("cg:" ++ pyStrOf (.str "g")) := by
  have h := claim_c3_amended resCg
    [("ruleId", .str "r"), ("correlationGuid", .str "g"),
     ("fingerprints", .obj [("x", .str "1")])]
    (.str "g") rfl rfl (by decide)
  exact ⟨h.1, h.2.1 _ _ _ _ _⟩

/-- Claim C8 counterexample: with an empty rule id, the help field is not
the empty string — the id-less catalog entry (whose defaulted id is the
empty string) matches, and its helpUri is returned. -/
theorem claim_c8_counterexample :
    ruleHelp runNoId (.str "") = .ok (.str "https://x") ∧
    Json.str "https://x" ≠ .str "" :=
  ⟨rfl, fun h => absurd (Json.str.inj h) (by decide)⟩

/-- Claim C8 (amended): the help value is the `or`-defaulted `helpUri` of
the first rule-catalog entry whose `or`-defaulted id equals the result's
rule id, and the empty string when no entry matches; an empty rule id is
not special-cased, so it can match an entry that lacks an id. -/
theorem claim_c8_amended (ruleId : Json) (rules : List Json)
    (hobj : ∀ r ∈ rules, isObjB r = true) :
    ruleHelpLoop ruleId rules = .ok
      (match rules.find? (ruleMatches ruleId) with
       | some r => pyOr (objGetD r "helpUri") (.str "")
       | none => .str "") ∧
    ∀ rs : List Json,
      ruleHelp (.obj [("tool", .obj [("driver", .obj [("rules", .arr rs)])])]) ruleId =
        ruleHelpLoop ruleId rs := by
  constructor
  · induction rules with
    | nil => rfl
    | cons r t ih =>
      have hr : isObjB r = true := hobj r (List.mem_cons_self _ _)
      obtain ⟨kv, rfl⟩ : ∃ kv, r = Json.obj kv := by
        cases r <;> simp [isObjB] at hr ⊢
      simp only [ruleHelpLoop, pyGet, exceptBindOk, List.find?]
      by_cases hm : ruleMatches ruleId (Json.obj kv) = true
      · have : pyEq (pyOr ((lookupKey kv "id").getD Json.null) (.str "")) ruleId = true := hm
        rw [if_pos this, hm]
        rfl
      · have hfalse : pyEq (pyOr ((lookupKey kv "id").getD Json.null) (.str "")) ruleId = false := by
          simpa [ruleMatches, objGetD] using hm
        rw [if_neg (by simp [hfalse]), Bool.not_eq_true] at *
        rw [hm]
        exact ih (fun x hx => hobj x (List.mem_cons_of_mem _ hx))
  · intro rs
    cases rs with
    | nil => rfl
    | cons a t => rfl

/-- Witness for the amended claim C8 at a concrete catalog with an id-less
entry and an empty rule id. -/
theorem claim_c8_amended_witness :
    ruleHelpLoop (.str "") [.obj [("helpUri", .str "https://x")]] =
      .ok (.str "https://x") := by
  have h := (claim_c8_amended (.str "") [.obj [("helpUri", .str "https://x")]]
    (fun r hr => by rcases List.mem_singleton.mp hr with rfl; rfl)).1
  exact h

/-- Claim C10: with mode `update` and no comment carrying the marker, the
upserter succeeds with exit code 0 and performs zero write API calls. -/
theorem claim_c10_update_without_marker (name raw : String) (n : Nat)
    (comments : List PrComment)
    (hbody : pyStrip raw ≠ "")
    (hnone : ∀ c ∈ comments, hasSub (markerFor name).data c.body.data = false) :
    commentMain .update name raw (some n) comments = .ok (0, []) := by
  have hfind : findExistingComment comments (markerFor name) = none := by
    unfold findExistingComment
    exact List.find?_eq_none.mpr (fun c hc => by simp [hnone c hc])
  unfold commentMain
  rw [if_neg hbody]
  simp only [hfind]
  rfl

/-- Witness for claim C10: a PR holding one unrelated comment. -/
theorem claim_c10_update_without_marker_witness :
    commentMain .update "qa" "hello" (some 7) [⟨11, "unrelated comment"⟩] = .ok (0, []) :=
  claim_c10_update_without_marker "qa" "hello" 7 [⟨11, "unrelated comment"⟩]
    (by decide) (by decide)

/-- Claim C9 (digest modelled from the spec): the text digest is a fixed
format block whose per-severity counts and total are exactly the counts
interpolated into the HTML header line for the same deduplicated rows, and
when every row's level is one of the four normalized severities the four
per-severity counts sum to the total. -/
theorem claim_c9_digest_counts (rows : List Row)
    (h : ∀ r ∈ rows, r.level ∈ sevOrder) :
    textDigest rows =
      "Errors: " ++ natStr (countLevel rows "error") ++ "\n" ++
      "Warnings: " ++ natStr (countLevel rows "warning") ++ "\n" ++
      "Notes: " ++ natStr (countLevel rows "note") ++ "\n" ++
      "Total: " ++ natStr rows.length ++ "\n" ∧
    headerLine rows =
      "<p>🔴 " ++ natStr (countLevel rows "error") ++
      " 🟡 " ++ natStr (countLevel rows "warning") ++
      " 🔵 " ++ natStr (countLevel rows "note") ++
      " Total: " ++ natStr rows.length ++ "</p>" ∧
    countLevel rows "error" + countLevel rows "warning" + countLevel rows "note" +
      countLevel rows "none" = rows.length := by
  refine ⟨rfl, rfl, ?_⟩
  induction rows with
  | nil => rfl
  | cons r t ih =>
    have hr := h r (List.mem_cons_self _ _)
    have ht := ih (fun x hx => h x (List.mem_cons_of_mem _ hx))
    simp only [sevOrder, List.mem_cons, List.not_mem_nil, or_false] at hr
    simp only [countLevel, List.filter_cons, List.length_cons]
    rcases hr with hr | hr | hr | hr <;>
      simp only [countLevel] at ht <;>
      rw [hr] <;> simp <;> omega

theorem pyGet_of_isObj (j : Json) (h : isObjB j = true) (k : String) :
    pyGet j k = .ok (objGetD j k) := by
  cases j <;> simp [isObjB] at h ⊢ <;> rfl

theorem pyOr_falsy (x y : Json) (h : truthy x = false) : pyOr x y = y := by
  simp [pyOr, h]

theorem pyOr_truthy (x y : Json) (h : truthy x = true) : pyOr x y = x := by
  simp [pyOr, h]

theorem fieldOk_cases (j : Json) (k : String) (p : Json → Bool)
    (h : fieldOk j k p = true) :
    truthy (objGetD j k) = false ∨ p (objGetD j k) = true := by
  cases ht : truthy (objGetD j k) with
  | false => exact Or.inl rfl
  | true =>
    unfold fieldOk at h
    rw [ht] at h
    exact Or.inr (by simpa using h)

theorem locsWF_truthy_shape (v : Json) (hwf : locsWF v = true) (ht : truthy v = true) :
    ∃ x t, v = .arr (x :: t) ∧ locWF x = true := by
  cases v with
  | arr xs =>
    cases xs with
    | nil => exact absurd ht (by decide)
    | cons a b => exact ⟨a, b, rfl, hwf⟩
  | null => exact absurd hwf (by decide)
  | bool b => exact absurd hwf (by simp [locsWF])
  | num n => exact absurd hwf (by simp [locsWF])
  | str s => exact absurd hwf (by simp [locsWF])
  | obj kvs => exact absurd hwf (by simp [locsWF])

theorem arrWF_shape (v : Json) (elemP : Json → Bool)
    (hwf : (match v with | .arr rs => rs.all elemP | _ => false) = true) :
    ∃ xs, v = .arr xs ∧ ∀ x ∈ xs, elemP x = true := by
  cases v with
  | arr xs => exact ⟨xs, rfl, fun x hx => List.all_eq_true.mp hwf x hx⟩
  | null => cases hwf
  | bool b => cases hwf
  | num n => cases hwf
  | str s => cases hwf
  | obj kvs => cases hwf

theorem isObjB_shape (v : Json) (h : isObjB v = true) : ∃ kvs, v = .obj kvs := by
  cases v <;> simp [isObjB] at h ⊢

theorem isStrB_shape (v : Json) (h : isStrB v = true) : ∃ s, v = .str s := by
  cases v <;> simp [isStrB] at h ⊢

theorem pyOrObj_isObj (v : Json) (hv : truthy v = false ∨ isObjB v = true) :
    isObjB (pyOr v (.obj [])) = true := by
  cases htv : truthy v with
  | false => rw [pyOr_falsy _ _ htv]; rfl
  | true =>
    rw [pyOr_truthy _ _ htv]
    rcases hv with h | h
    · rw [h] at htv; cases htv
    · exact h

theorem andE {a b : Bool} (h : (a && b) = true) : a = true ∧ b = true := by
  simp at h
  exact h

theorem normLevel_ok (v : Json) (hv : truthy v = false ∨ isStrB v = true) :
    ∃ s, normLevel v = .ok s := by
  cases htv : truthy v with
  | false =>
    unfold normLevel
    rw [htv]
    exact ⟨"warning", rfl⟩
  | true =>
    rcases hv with h | h
    · rw [h] at htv; cases htv
    · obtain ⟨s, rfl⟩ := isStrB_shape v h
      unfold normLevel
      rw [htv]
      by_cases h1 : lowerStr s = "info"
      · exact ⟨"note", by simp [h1]⟩
      · by_cases h2 : (lowerStr s = "none" || lowerStr s = "note" ||
          lowerStr s = "warning" || lowerStr s = "error") = true
        · exact ⟨lowerStr s, by simp [h1, h2]⟩
        · refine ⟨"warning", ?_⟩
          simp only [Bool.not_true, Bool.false_eq_true, if_false]
          rw [if_neg h1, if_pos]
          simp only [Bool.not_eq_true] at h2
          simp [h2]

theorem normalizeArtifactUri_ok (env : Env) (v : Json)
    (hv : truthy v = false ∨ isStrB v = true) :
    ∃ s, normalizeArtifactUri env v = .ok s := by
  cases htv : truthy v with
  | false =>
    unfold normalizeArtifactUri
    rw [htv]
    exact ⟨"", rfl⟩
  | true =>
    rcases hv with h | h
    · rw [h] at htv; cases htv
    · obtain ⟨s, rfl⟩ := isStrB_shape v h
      unfold normalizeArtifactUri
      rw [htv]
      exact ⟨_, rfl⟩

theorem msgText_ok (res : Json) (hobj : isObjB res = true)
    (hmsg : fieldOk res "message" msgWF = true) :
    ∃ s, msgText res = .ok s := by
  unfold msgText
  rw [pyGet_of_isObj res hobj, exceptBindOk]
  cases htm : truthy (objGetD res "message") with
  | false =>
    rw [pyOr_falsy _ _ htm]
    exact ⟨_, rfl⟩
  | true =>
    rcases fieldOk_cases _ _ _ hmsg with h | h
    · rw [h] at htm; cases htm
    · rw [pyOr_truthy _ _ htm]
      have hmo : isObjB (objGetD res "message") = true := by
        unfold msgWF at h
        exact (andE h).1
      have htx : fieldOk (objGetD res "message") "text" isStrB = true := by
        unfold msgWF at h
        exact (andE h).2
      rw [pyGet_of_isObj _ hmo, exceptBindOk]
      cases htt : truthy (objGetD (objGetD res "message") "text") with
      | false =>
        rw [pyOr_falsy _ _ htt]
        exact ⟨_, rfl⟩
      | true =>
        rcases fieldOk_cases _ _ _ htx with h2 | h2
        · rw [h2] at htt; cases htt
        · obtain ⟨s, hs⟩ := isStrB_shape _ h2
          rw [pyOr_truthy _ _ htt, hs]
          exact ⟨_, rfl⟩

theorem bestFingerprint_ok (res : Json) (hobj : isObjB res = true) :
    ∃ s, bestFingerprint res = .ok s := by
  unfold bestFingerprint
  rw [pyGet_of_isObj res hobj, exceptBindOk]
  cases htc : truthy (objGetD res "correlationGuid") with
  | true =>
    exact ⟨_, rfl⟩
  | false =>
    rw [pyGet_of_isObj res hobj, exceptBindOk]
    cases h1 : fpOf "fingerprints" (objGetD res "fingerprints") with
    | some s => exact ⟨s, rfl⟩
    | none =>
      rw [pyGet_of_isObj res hobj, exceptBindOk]
      cases h2 : fpOf "partialFingerprints" (objGetD res "partialFingerprints") with
      | some s => exact ⟨s, rfl⟩
      | none => exact ⟨"", rfl⟩

theorem toolName_ok (run : Json) (hobj : isObjB run = true)
    (htool : fieldOk run "tool" toolWF = true) :
    ∃ v, toolName run = .ok v := by
  unfold toolName
  rw [pyGet_of_isObj run hobj, exceptBindOk]
  have hto : isObjB (pyOr (objGetD run "tool") (.obj [])) = true := by
    apply pyOrObj_isObj
    rcases fieldOk_cases _ _ _ htool with h | h
    · exact Or.inl h
    · exact Or.inr (andE h).1
  rw [pyGet_of_isObj _ hto, exceptBindOk]
  have hdo : isObjB (pyOr (objGetD (pyOr (objGetD run "tool") (.obj [])) "driver")
      (.obj [])) = true := by
    cases htt : truthy (objGetD run "tool") with
    | false =>
      rw [pyOr_falsy _ _ htt]
      rfl
    | true =>
      rw [pyOr_truthy _ _ htt]
      have hwf : toolWF (objGetD run "tool") = true := by
        rcases fieldOk_cases _ _ _ htool with h | h
        · rw [h] at htt; cases htt
        · exact h
      apply pyOrObj_isObj
      rcases fieldOk_cases _ _ _ (andE hwf).2 with h2 | h2
      · exact Or.inl h2
      · exact Or.inr (andE h2).1
  rw [pyGet_of_isObj _ hdo, exceptBindOk]
  exact ⟨_, rfl⟩

theorem runDriverFacts (run : Json) (hobj : isObjB run = true)
    (htool : fieldOk run "tool" toolWF = true) :
    isObjB (pyOr (objGetD run "tool") (.obj [])) = true ∧
    isObjB (pyOr (objGetD (pyOr (objGetD run "tool") (.obj [])) "driver") (.obj [])) = true ∧
    fieldOk (pyOr (objGetD (pyOr (objGetD run "tool") (.obj [])) "driver") (.obj []))
      "rules" rulesWF = true := by
  cases htt : truthy (objGetD run "tool") with
  | false =>
    rw [pyOr_falsy _ _ htt]
    exact ⟨rfl, rfl, rfl⟩
  | true =>
    rw [pyOr_truthy _ _ htt]
    have hwf : toolWF (objGetD run "tool") = true := by
      rcases fieldOk_cases _ _ _ htool with h | h
      · rw [h] at htt; cases htt
      · exact h
    refine ⟨(andE hwf).1, ?_, ?_⟩
    · cases htd : truthy (objGetD (objGetD run "tool") "driver") with
      | false => rw [pyOr_falsy _ _ htd]; rfl
      | true =>
        rw [pyOr_truthy _ _ htd]
        rcases fieldOk_cases _ _ _ (andE hwf).2 with h2 | h2
        · rw [h2] at htd; cases htd
        · exact (andE h2).1
    · cases htd : truthy (objGetD (objGetD run "tool") "driver") with
      | false => rw [pyOr_falsy _ _ htd]; rfl
      | true =>
        rw [pyOr_truthy _ _ htd]
        rcases fieldOk_cases _ _ _ (andE hwf).2 with h2 | h2
        · rw [h2] at htd; cases htd
        · exact (andE h2).2

theorem ruleHelpLoop_ok (ruleId : Json) (rules : List Json)
    (hobj : ∀ r ∈ rules, isObjB r = true) :
    ∃ v, ruleHelpLoop ruleId rules = .ok v := by
  induction rules with
  | nil => exact ⟨_, rfl⟩
  | cons r t ih =>
    obtain ⟨kv, rfl⟩ := isObjB_shape r (hobj r (List.mem_cons_self _ _))
    simp only [ruleHelpLoop, pyGet, exceptBindOk]
    split
    · exact ⟨_, rfl⟩
    · exact ih (fun x hx => hobj x (List.mem_cons_of_mem _ hx))

theorem ruleHelp_ok (run : Json) (ruleId : Json) (hobj : isObjB run = true)
    (htool : fieldOk run "tool" toolWF = true) :
    ∃ v, ruleHelp run ruleId = .ok v := by
  obtain ⟨hto, hdo, hrules⟩ := runDriverFacts run hobj htool
  unfold ruleHelp
  rw [pyGet_of_isObj run hobj, exceptBindOk, pyGet_of_isObj _ hto, exceptBindOk,
    pyGet_of_isObj _ hdo, exceptBindOk]
  cases htr : truthy (objGetD (pyOr (objGetD (pyOr (objGetD run "tool") (.obj []))
      "driver") (.obj [])) "rules") with
  | false =>
    rw [pyOr_falsy _ _ htr]
    simp only [pyIter, exceptBindOk]
    exact ⟨_, rfl⟩
  | true =>
    rw [pyOr_truthy _ _ htr]
    have hr : rulesWF (objGetD (pyOr (objGetD (pyOr (objGetD run "tool") (.obj []))
        "driver") (.obj [])) "rules") = true := by
      rcases fieldOk_cases _ _ _ hrules with h | h
      · rw [h] at htr; cases htr
      · exact h
    obtain ⟨xs, hxs, hall⟩ := arrWF_shape _ _ hr
    rw [hxs]
    simp only [pyIter, exceptBindOk]
    exact ruleHelpLoop_ok ruleId xs hall

theorem extractLocation_ok (env : Env) (res : Json) (hobj : isObjB res = true)
    (hlocs : fieldOk res "locations" locsWF = true) :
    ∃ out, extractLocation env res = .ok out := by
  unfold extractLocation
  rw [pyGet_of_isObj res hobj, exceptBindOk]
  cases htl : truthy (objGetD res "locations") with
  | false =>
    rw [pyOr_falsy _ _ htl]
    exact ⟨_, rfl⟩
  | true =>
    have hwf : locsWF (objGetD res "locations") = true := by
      rcases fieldOk_cases _ _ _ hlocs with h | h
      · rw [h] at htl; cases htl
      · exact h
    obtain ⟨x, t, hx, hlw⟩ := locsWF_truthy_shape _ hwf htl
    rw [hx, pyOr_truthy _ _ (by rw [hx] at htl; exact htl)]
    simp only [truthy, List.isEmpty_cons, Bool.not_false, Bool.not_true,
      Bool.false_eq_true, if_false, pyIndex0, exceptBindOk]
    have hxo : isObjB x = true := (andE hlw).1
    rw [pyGet_of_isObj x hxo, exceptBindOk]
    have hpl : fieldOk x "physicalLocation" plWF = true := (andE hlw).2
    have hplo : isObjB (pyOr (objGetD x "physicalLocation") (.obj [])) = true := by
      apply pyOrObj_isObj
      rcases fieldOk_cases _ _ _ hpl with h | h
      · exact Or.inl h
      · exact Or.inr (andE (andE h).1).1
    rw [pyGet_of_isObj _ hplo, exceptBindOk]
    have halo : isObjB (pyOr (objGetD (pyOr (objGetD x "physicalLocation") (.obj []))
        "artifactLocation") (.obj [])) = true := by
      cases htp : truthy (objGetD x "physicalLocation") with
      | false => rw [pyOr_falsy _ _ htp]; rfl
      | true =>
        rw [pyOr_truthy _ _ htp]
        have hplw : plWF (objGetD x "physicalLocation") = true := by
          rcases fieldOk_cases _ _ _ hpl with h | h
          · rw [h] at htp; cases htp
          · exact h
        apply pyOrObj_isObj
        rcases fieldOk_cases _ _ _ (andE (andE hplw).1).2 with h | h
        · exact Or.inl h
        · exact Or.inr (andE h).1
    rw [pyGet_of_isObj _ halo, exceptBindOk]
    have huri : truthy (pyOr (objGetD (pyOr (objGetD (pyOr (objGetD x
        "physicalLocation") (.obj [])) "artifactLocation") (.obj [])) "uri")
          (.str "")) = false ∨
        isStrB (pyOr (objGetD (pyOr (objGetD (pyOr (objGetD x "physicalLocation")
          (.obj [])) "artifactLocation") (.obj [])) "uri") (.str "")) = true := by
      cases htu : truthy (objGetD (pyOr (objGetD (pyOr (objGetD x "physicalLocation")
          (.obj [])) "artifactLocation") (.obj [])) "uri") with
      | false => rw [pyOr_falsy _ _ htu]; exact Or.inr rfl
      | true =>
        rw [pyOr_truthy _ _ htu]
        right
        cases htp : truthy (objGetD x "physicalLocation") with
        | false =>
          rw [pyOr_falsy _ _ htp] at htu
          cases hta : truthy (objGetD (pyOr (objGetD (Json.obj [])
              "artifactLocation") (.obj [])) "uri") with
          | false => rw [pyOr_falsy _ _ htp]; simp [objGetD, lookupKey, pyOr, truthy] at htu
          | true => rw [pyOr_falsy _ _ htp]; simp [objGetD, lookupKey, pyOr, truthy] at htu
        | true =>
          rw [pyOr_truthy _ _ htp] at htu ⊢
          have hplw : plWF (objGetD x "physicalLocation") = true := by
            rcases fieldOk_cases _ _ _ hpl with h | h
            · rw [h] at htp; cases htp
            · exact h
          cases hta : truthy (objGetD (objGetD x "physicalLocation")
              "artifactLocation") with
          | false =>
            rw [pyOr_falsy _ _ hta] at htu
            simp [objGetD, lookupKey, truthy] at htu
          | true =>
            rw [pyOr_truthy _ _ hta] at htu ⊢
            have halw : alWF (objGetD (objGetD x "physicalLocation")
                "artifactLocation") = true := by
              rcases fieldOk_cases _ _ _ (andE (andE hplw).1).2 with h | h
              · rw [h] at hta; cases hta
              · exact h
            rcases fieldOk_cases _ _ _ (andE halw).2 with h | h
            · rw [h] at htu; cases htu
            · exact h
    obtain ⟨p, hp⟩ := normalizeArtifactUri_ok env _ huri
    rw [hp, exceptBindOk]
    have hreg : isObjB (pyOr (objGetD (pyOr (objGetD x "physicalLocation") (.obj []))
        "region") (.obj [])) = true := by
      cases htp : truthy (objGetD x "physicalLocation") with
      | false => rw [pyOr_falsy _ _ htp]; rfl
      | true =>
        rw [pyOr_truthy _ _ htp]
        have hplw : plWF (objGetD x "physicalLocation") = true := by
          rcases fieldOk_cases _ _ _ hpl with h | h
          · rw [h] at htp; cases htp
          · exact h
        apply pyOrObj_isObj
        rcases fieldOk_cases _ _ _ (andE hplw).2 with h | h
        · exact Or.inl h
        · exact Or.inr h
    rw [pyGet_of_isObj _ hplo, exceptBindOk, pyGet_of_isObj _ hreg, exceptBindOk,
      pyGet_of_isObj _ hreg, exceptBindOk]
    exact ⟨_, rfl⟩

theorem rowOfResult_ok (env : Env) (run tool res : Json)
    (hrun : runWF run = true) (hres : resultWF res = true) :
    ∃ row, rowOfResult env run tool res = .ok row := by
  have hro : isObjB res = true := (andE (andE (andE hres).1).1).1
  have hlevel : fieldOk res "level" isStrB = true := (andE (andE (andE hres).1).1).2
  have hmessage : fieldOk res "message" msgWF = true := (andE (andE hres).1).2
  have hlocations : fieldOk res "locations" locsWF = true := (andE hres).2
  have hruno : isObjB run = true := (andE (andE hrun).1).1
  have hrtool : fieldOk run "tool" toolWF = true := (andE (andE hrun).1).2
  unfold rowOfResult
  rw [pyGet_of_isObj res hro, exceptBindOk]
  obtain ⟨lv, hlv⟩ := normLevel_ok (objGetD res "level") (by
    rcases fieldOk_cases _ _ _ hlevel with h | h
    · exact Or.inl h
    · exact Or.inr h)
  rw [hlv, exceptBindOk, pyGet_of_isObj res hro, exceptBindOk]
  obtain ⟨ms, hms⟩ := msgText_ok res hro hmessage
  rw [hms, exceptBindOk]
  obtain ⟨lo, hlo⟩ := extractLocation_ok env res hro hlocations
  rw [hlo, exceptBindOk]
  obtain ⟨hv, hhv⟩ := ruleHelp_ok run _ hruno hrtool
  rw [hhv, exceptBindOk]
  obtain ⟨fs, hfs⟩ := bestFingerprint_ok res hro
  rw [hfs, exceptBindOk]
  exact ⟨_, rfl⟩

theorem mapM_except_ok {α β : Type} (f : α → Except String β) (P : α → β → Prop)
    (xs : List α) (h : ∀ x ∈ xs, ∃ y, f x = .ok y ∧ P x y) :
    ∃ ys, xs.mapM f = .ok ys ∧ List.Forall₂ P xs ys := by
  induction xs with
  | nil => exact ⟨[], rfl, List.Forall₂.nil⟩
  | cons x t ih =>
    obtain ⟨y, hy, hp⟩ := h x (List.mem_cons_self _ _)
    obtain ⟨ys, hys, hf⟩ := ih (fun z hz => h z (List.mem_cons_of_mem _ hz))
    refine ⟨y :: ys, ?_, List.Forall₂.cons hp hf⟩
    rw [List.mapM_cons, hy, exceptBindOk, hys, exceptBindOk]
    rfl

theorem rowsOfRun_ok (env : Env) (run : Json) (hrun : runWF run = true) :
    ∃ rows, rowsOfRun env run = .ok rows ∧
      (rows : List Row).length = (runResults run).length := by
  have hro : isObjB run = true := (andE (andE hrun).1).1
  have htool : fieldOk run "tool" toolWF = true := (andE (andE hrun).1).2
  have hresults : fieldOk run "results" resultsWF = true := (andE hrun).2
  obtain ⟨tv, htv⟩ := toolName_ok run hro htool
  unfold rowsOfRun
  rw [htv, exceptBindOk, pyGet_of_isObj run hro, exceptBindOk]
  cases htr : truthy (objGetD run "results") with
  | false =>
    rw [pyOr_falsy _ _ htr]
    refine ⟨[], rfl, ?_⟩
    unfold runResults
    rw [pyOr_falsy _ _ htr]
    rfl
  | true =>
    have hrw : resultsWF (objGetD run "results") = true := by
      rcases fieldOk_cases _ _ _ hresults with h | h
      · rw [h] at htr; cases htr
      · exact h
    obtain ⟨rs, hrs, hall⟩ := arrWF_shape _ _ hrw
    rw [pyOr_truthy _ _ htr, hrs]
    simp only [pyIter, exceptBindOk]
    obtain ⟨ys, hys, hf⟩ := mapM_except_ok (rowOfResult env run tv) (fun _ _ => True) rs
      (fun x hx =>
        (rowOfResult_ok env run tv x hrun (hall x hx)).elim
          (fun row hrow => ⟨row, hrow, trivial⟩))
    rw [hys]
    refine ⟨ys, rfl, ?_⟩
    unfold runResults
    rw [pyOr_truthy _ _ htr, hrs]
    exact hf.length_eq.symm

theorem forall2_length_sum (xs : List Json) (ys : List (List Row))
    (hf : List.Forall₂ (fun run block => (block : List Row).length =
      (runResults run).length) xs ys) :
    (ys.map List.length).sum = (xs.map (fun run => (runResults run).length)).sum := by
  induction hf with
  | nil => rfl
  | cons h _ ih => simp [h, ih]

/-- Claim C5 (amended): on a well-formed document (runs a list of objects
whose results are absent, falsy, or lists of well-formed result objects)
extraction succeeds and yields exactly one row per (run, result) pair in
source order; a document with missing or falsy runs contributes zero
findings; a well-formed result whose locations value is falsy yields a
finding with empty path, null line and empty region.  (A truthy non-list
results value, by contrast, makes extraction raise; see the
counterexample.) -/
theorem claim_c5_extraction_amended (env : Env) (doc : Json) (h : docWF doc = true) :
    (∃ blocks, (docRuns doc).mapM (rowsOfRun env) = .ok blocks ∧
       sarifToRows env doc = .ok blocks.flatten ∧
       List.Forall₂ (fun run block => (block : List Row).length = (runResults run).length)
         (docRuns doc) blocks ∧
       blocks.flatten.length =
         ((docRuns doc).map (fun run => (runResults run).length)).sum) ∧
    (∀ kvs, doc = .obj kvs → truthy ((lookupKey kvs "runs").getD .null) = false →
       sarifToRows env doc = .ok []) ∧
    (∀ res : Json, resultWF res = true → truthy (objGetD res "locations") = false →
       extractLocation env res = .ok ("", .null, "")) := by
  have hdo : isObjB doc = true := (andE h).1
  have hruns : fieldOk doc "runs" runsWF = true := (andE h).2
  refine ⟨?_, ?_, ?_⟩
  · unfold sarifToRows
    rw [pyGet_of_isObj doc hdo, exceptBindOk]
    cases htr : truthy (objGetD doc "runs") with
    | false =>
      refine ⟨[], ?_, ?_, ?_, ?_⟩
      · unfold docRuns
        rw [pyOr_falsy _ _ htr]
        rfl
      · rw [pyOr_falsy _ _ htr]
        rfl
      · unfold docRuns
        rw [pyOr_falsy _ _ htr]
        exact List.Forall₂.nil
      · unfold docRuns
        rw [pyOr_falsy _ _ htr]
        rfl
    | true =>
      have hrw : runsWF (objGetD doc "runs") = true := by
        rcases fieldOk_cases _ _ _ hruns with h2 | h2
        · rw [h2] at htr; cases htr
        · exact h2
      obtain ⟨rs, hrs, hall⟩ := arrWF_shape _ _ hrw
      have hdr : docRuns doc = rs := by
        unfold docRuns
        rw [pyOr_truthy _ _ htr, hrs]
      obtain ⟨blocks, hblocks, hf⟩ := mapM_except_ok (rowsOfRun env)
        (fun run block => (block : List Row).length = (runResults run).length) rs
        (fun run hrn => rowsOfRun_ok env run (hall run hrn))
      refine ⟨blocks, ?_, ?_, ?_, ?_⟩
      · rw [hdr]
        exact hblocks
      · rw [pyOr_truthy _ _ htr, hrs]
        simp only [pyIter, exceptBindOk]
        rw [hblocks, exceptBindOk]
        rfl
      · rw [hdr]
        exact hf
      · rw [hdr, List.length_flatten]
        exact forall2_length_sum rs blocks hf
  · intro kvs hk htr
    subst hk
    unfold sarifToRows
    rw [pyGet_of_isObj (Json.obj kvs) (by rfl) "runs", exceptBindOk,
      pyOr_falsy _ _ (by simpa [objGetD] using htr)]
    rfl
  · intro res hres htl
    have hro : isObjB res = true := (andE (andE (andE hres).1).1).1
    unfold extractLocation
    rw [pyGet_of_isObj res hro, exceptBindOk, pyOr_falsy _ _ htl]
    rfl

/-- Witness for the amended claim C5 at a concrete well-formed document. -/
theorem claim_c5_extraction_amended_witness :
    ∃ blocks, (docRuns wfDoc).mapM (rowsOfRun env0) = .ok blocks ∧
      sarifToRows env0 wfDoc = .ok blocks.flatten ∧
      List.Forall₂ (fun run block => (block : List Row).length = (runResults run).length)
        (docRuns wfDoc) blocks ∧
      blocks.flatten.length =
        ((docRuns wfDoc).map (fun run => (runResults run).length)).sum :=
  (claim_c5_extraction_amended env0 wfDoc (by decide)).1

/-- Claim C5 counterexample: a truthy non-list `results` value (a non-empty
object) makes extraction raise an AttributeError rather than contributing
zero findings. -/
theorem claim_c5_counterexample :
    sarifToRows env0 badResultsDoc = .error "AttributeError" ∧
    ∀ rows, sarifToRows env0 badResultsDoc ≠ .ok rows := by
  constructor
  · rfl
  · intro rows hr
    rw [show sarifToRows env0 badResultsDoc = .error "AttributeError" from rfl] at hr
    cases hr

theorem pyOr_obj_default (kvs : List (String × Json)) :
    pyOr (.obj kvs) (.obj []) = .obj kvs := by
  cases kvs with
  | nil => rfl
  | cons a t => rfl

/-- Claim C6 counterexample: with start/end columns 3/9 present alongside
lines 12-15, the region string is "L12-L15" — the column suffix
" C3-C9" the claim requires is never rendered. -/
theorem claim_c6_counterexample :
    extractLocation env0 colRegionRes = .ok ("a.py", .num 12, "L12-L15") ∧
    ("L12-L15" : String) ≠ "L12-L15 C3-C9" :=
  ⟨rfl, by decide⟩

/-- Claim C6 (amended): for a result whose first location has an integer
start line `n`, the region string is `L{n}` when no differing integer end
line is present and `L{n}-L{end}` when one is; column data in the region
object is ignored; with no integer start line the region string is empty
(and the line value null). -/
theorem claim_c6_region_amended (env : Env) (u : String) (reg : List (String × Json))
    (slv elv : Json)
    (hsl : objGetD (.obj reg) "startLine" = slv)
    (hel : objGetD (.obj reg) "endLine" = elv) :
    (∀ n : Int, slv = .num n →
      ∃ p, extractLocation env (mkLocRes (.str u) (.obj reg)) =
        .ok (p, .num n,
          if (!isIntLike elv || intLikeEq elv (.num n)) = true then "L" ++ intStr n
          else "L" ++ intStr n ++ "-L" ++ pyStrOf elv)) ∧
    (isIntLike slv = false →
      ∃ p, extractLocation env (mkLocRes (.str u) (.obj reg)) = .ok (p, .null, "")) := by
  have hnorm : ∃ p, normalizeArtifactUri env (pyOr (.str u) (.str "")) = .ok p := by
    cases htu : truthy (.str u) with
    | false =>
      rw [pyOr_falsy _ _ htu]
      exact normalizeArtifactUri_ok env _ (Or.inr rfl)
    | true =>
      rw [pyOr_truthy _ _ htu]
      exact normalizeArtifactUri_ok env _ (Or.inr rfl)
  obtain ⟨p, hp⟩ := hnorm
  have hstep : extractLocation env (mkLocRes (.str u) (.obj reg)) =
      (normalizeArtifactUri env (pyOr (.str u) (.str "")) >>= fun path =>
        pyGet (pyOr (Json.obj reg) (Json.obj [])) "startLine" >>= fun sl =>
        pyGet (pyOr (Json.obj reg) (Json.obj [])) "endLine" >>= fun el =>
        pure (path,
          if isIntLike sl then sl else Json.null,
          if isIntLike sl then
            if (!isIntLike el || intLikeEq el sl) = true then "L" ++ pyStrOf sl
            else "L" ++ pyStrOf sl ++ "-L" ++ pyStrOf el
          else "")) := rfl
  have hmain : extractLocation env (mkLocRes (.str u) (.obj reg)) =
      .ok (p,
        if isIntLike slv then slv else .null,
        if isIntLike slv then
          if (!isIntLike elv || intLikeEq elv slv) = true then "L" ++ pyStrOf slv
          else "L" ++ pyStrOf slv ++ "-L" ++ pyStrOf elv
        else "") := by
    subst hsl hel
    rw [hstep, hp, exceptBindOk, pyOr_obj_default reg,
      pyGet_of_isObj (Json.obj reg) rfl "startLine", exceptBindOk,
      pyGet_of_isObj (Json.obj reg) rfl "endLine", exceptBindOk]
    rfl
  constructor
  · intro n hn
    subst hn
    refine ⟨p, ?_⟩
    rw [hmain]
    rfl
  · intro hni
    refine ⟨p, ?_⟩
    rw [hmain, hni]
    simp only [Bool.false_eq_true, if_false]

theorem replaceC_append (needle : Char) (rep a b : List Char) :
    replaceC needle rep (a ++ b) = replaceC needle rep a ++ replaceC needle rep b := by
  induction a with
  | nil => rfl
  | cons c t ih => simp [replaceC, ih]

theorem escData_append (a b : List Char) :
    escData (a ++ b) = escData a ++ escData b := by
  unfold escData
  rw [replaceC_append, replaceC_append, replaceC_append, replaceC_append, replaceC_append]

theorem escData_single (c : Char) : escData [c] = escChar c := by
  unfold escChar
  by_cases h1 : c = '&'
  · subst h1; rfl
  · by_cases h2 : c = '<'
    · subst h2; rfl
    · by_cases h3 : c = '>'
      · subst h3; rfl
      · by_cases h4 : c = '"'
        · subst h4; rfl
        · by_cases h5 : c = Char.ofNat 39
          · subst h5; rfl
          · rw [if_neg h1, if_neg h2, if_neg h3, if_neg h4, if_neg h5]
            simp [escData, replaceC, h1, h2, h3, h4, h5]

theorem escData_eq_flatten (l : List Char) :
    escData l = (l.map escChar).flatten := by
  induction l with
  | nil => rfl
  | cons c t ih =>
    have : (c :: t) = [c] ++ t := rfl
    rw [this, escData_append, escData_single, ih]
    rfl

theorem lt_not_mem_escChar (c : Char) : '<' ∉ escChar c := by
  unfold escChar
  by_cases h1 : c = '&'
  · simp [h1]
  · by_cases h2 : c = '<'
    · simp [h1, h2]
    · by_cases h3 : c = '>'
      · simp [h1, h2, h3]
      · by_cases h4 : c = '"'
        · simp [h1, h2, h3, h4]
        · by_cases h5 : c = Char.ofNat 39
          · simp [h1, h2, h3, h4, h5]
          · simp [h1, h2, h3, h4, h5]
            exact fun he => h2 he.symm

theorem gt_not_mem_escChar (c : Char) : '>' ∉ escChar c := by
  unfold escChar
  by_cases h1 : c = '&'
  · simp [h1]
  · by_cases h2 : c = '<'
    · simp [h1, h2]
    · by_cases h3 : c = '>'
      · simp [h1, h2, h3]
      · by_cases h4 : c = '"'
        · simp [h1, h2, h3, h4]
        · by_cases h5 : c = Char.ofNat 39
          · simp [h1, h2, h3, h4, h5]
          · simp [h1, h2, h3, h4, h5]
            exact fun he => h3 he.symm

theorem lt_not_mem_escData (l : List Char) : '<' ∉ escData l := by
  rw [escData_eq_flatten]
  intro h
  obtain ⟨part, hpart, hmem⟩ := List.mem_flatten.mp h
  obtain ⟨c, _, rfl⟩ := List.mem_map.mp hpart
  exact lt_not_mem_escChar c hmem

theorem gt_not_mem_escData (l : List Char) : '>' ∉ escData l := by
  rw [escData_eq_flatten]
  intro h
  obtain ⟨part, hpart, hmem⟩ := List.mem_flatten.mp h
  obtain ⟨c, _, rfl⟩ := List.mem_map.mp hpart
  exact gt_not_mem_escChar c hmem

theorem chunkOk_of_no_lt (l : List Char) (h : '<' ∉ l) : chunkOk l := by
  refine ⟨?_, ?_, ?_⟩
  · cases hs : hasSub ['<', 's', 'c'] l
    · rfl
    · exact absurd (mem_of_hasSub _ _ hs '<' (by simp)) h
  · cases hs : endsIn l ['<']
    · rfl
    · have h2 : '<' ∈ l.reverse := mem_of_isPre _ _ (by simpa [endsIn] using hs) '<' (by simp)
      exact absurd (List.mem_reverse.mp h2) h
  · cases hs : endsIn l ['<', 's']
    · rfl
    · have h2 : '<' ∈ l.reverse := mem_of_isPre _ _ (by simpa [endsIn] using hs) '<' (by simp)
      exact absurd (List.mem_reverse.mp h2) h

theorem chunkOk_escData (l : List Char) : chunkOk (escData l) :=
  chunkOk_of_no_lt _ (lt_not_mem_escData l)

theorem chunkOk_esc (s : String) : chunkOk (esc s).data :=
  chunkOk_escData s.data

theorem chunkOk_natStr (n : Nat) : chunkOk (natStr n).data := by
  apply chunkOk_of_no_lt
  intro h
  have hb := natDigits_bound n '<' h
  have : ('<').toNat = 60 := by decide
  omega

theorem endsIn_extend (c : Char) (t p : List Char) (h : endsIn t p = true) :
    endsIn (c :: t) p = true := by
  unfold endsIn at h ⊢
  rw [List.reverse_cons]
  exact isPre_append_right _ _ _ h

theorem endsIn_tail_false (c : Char) (t p : List Char)
    (h : endsIn (c :: t) p = false) : endsIn t p = false := by
  cases he : endsIn t p
  · rfl
  · rw [← h]
    exact (endsIn_extend c t p he).symm

theorem hasSub_append_none (a b : List Char)
    (ha : hasSub ['<', 's', 'c'] a = false) (hb : hasSub ['<', 's', 'c'] b = false)
    (h1 : endsIn a ['<'] = false) (h2 : endsIn a ['<', 's'] = false) :
    hasSub ['<', 's', 'c'] (a ++ b) = false := by
  induction a with
  | nil => simpa using hb
  | cons c t ih =>
    have hsplit : isPre ['<', 's', 'c'] (c :: t) = false ∧
        hasSub ['<', 's', 'c'] t = false := by
      rw [hasSub] at ha
      constructor
      · cases hi : isPre ['<', 's', 'c'] (c :: t)
        · rfl
        · rw [hi] at ha; cases ha
      · cases hi : hasSub ['<', 's', 'c'] t
        · rfl
        · rw [hi, Bool.or_true] at ha; cases ha
    rw [List.cons_append, hasSub]
    have htail := ih hsplit.2 (endsIn_tail_false c t _ h1) (endsIn_tail_false c t _ h2)
    rw [htail, Bool.or_false]
    cases hi : isPre ['<', 's', 'c'] (c :: (t ++ b))
    · rfl
    · exfalso
      have hc : '<' = c ∧ isPre ['s', 'c'] (t ++ b) = true := by
        rw [isPre] at hi
        constructor
        · have := (andE hi).1
          simpa using this
        · exact (andE hi).2
      obtain ⟨rfl, hi2⟩ := hc
      cases t with
      | nil =>
        simp [endsIn, isPre] at h1
      | cons d t2 =>
        have hd : 's' = d ∧ isPre ['c'] (t2 ++ b) = true := by
          rw [List.cons_append, isPre] at hi2
          constructor
          · have := (andE hi2).1
            simpa using this
          · exact (andE hi2).2
        obtain ⟨rfl, hi3⟩ := hd
        cases t2 with
        | nil =>
          simp [endsIn, isPre] at h2
        | cons e t3 =>
          have he : 'c' = e := by
            rw [List.cons_append, isPre] at hi3
            have := (andE hi3).1
            simpa using this
          subst he
          have hpre : isPre ['<', 's', 'c'] ('<' :: 's' :: 'c' :: t3) = true := by
            simp [isPre]
          have hfull := hasSub_of_isPre _ _ hpre
          rw [ha] at hfull
          cases hfull

theorem endsIn_append_single (a b : List Char) (ha1 : endsIn a ['<'] = false)
    (hb1 : endsIn b ['<'] = false) : endsIn (a ++ b) ['<'] = false := by
  unfold endsIn at *
  rw [List.reverse_append]
  cases hrev : b.reverse with
  | nil => simpa using ha1
  | cons y m =>
    rw [hrev] at hb1
    rw [List.cons_append]
    simp only [List.reverse_cons, List.reverse_nil, List.nil_append, isPre] at hb1 ⊢
    simpa using hb1

theorem endsIn_append_pair (a b : List Char) (ha1 : endsIn a ['<'] = false)
    (ha2 : endsIn a ['<', 's'] = false) (hb1 : endsIn b ['<'] = false)
    (hb2 : endsIn b ['<', 's'] = false) : endsIn (a ++ b) ['<', 's'] = false := by
  unfold endsIn at *
  rw [List.reverse_append]
  cases hrev : b.reverse with
  | nil => simpa using ha2
  | cons y m =>
    rw [hrev] at hb1 hb2
    cases m with
    | nil =>
      rw [List.cons_append, List.nil_append]
      show isPre ['s', '<'] (y :: a.reverse) = false
      rw [isPre]
      cases hy : ('s' == y)
      · simp [hy]
      · simp only [hy, Bool.true_and]
        exact ha1
    | cons z m2 =>
      rw [List.cons_append, List.cons_append]
      show isPre ['s', '<'] (y :: z :: (m2 ++ a.reverse)) = false
      rw [isPre]
      cases hy : ('s' == y)
      · simp [hy]
      · simp only [Bool.true_and]
        rw [isPre]
        cases hz : ('<' == z)
        · simp [hz]
        · exfalso
          have hb2v : isPre ['s', '<'] (y :: z :: m2) = false := hb2
          rw [isPre, hy, Bool.true_and, isPre, hz, Bool.true_and] at hb2v
          simp [isPre] at hb2v

theorem chunkOk_append (a b : List Char) (ha : chunkOk a) (hb : chunkOk b) :
    chunkOk (a ++ b) :=
  ⟨hasSub_append_none a b ha.1 hb.1 ha.2.1 ha.2.2,
   endsIn_append_single a b ha.2.1 hb.2.1,
   endsIn_append_pair a b ha.2.1 ha.2.2 hb.2.1 hb.2.2⟩

theorem chunkOk_str_append (a b : String) (ha : chunkOk a.data) (hb : chunkOk b.data) :
    chunkOk (a ++ b).data := by
  rw [String.data_append]
  exact chunkOk_append _ _ ha hb

theorem chunkOk_joinSep (xs : List String) (h : ∀ x ∈ xs, chunkOk x.data) :
    chunkOk (joinSep "\n" xs).data := by
  induction xs with
  | nil => decide
  | cons x t ih =>
    cases t with
    | nil => simpa [joinSep] using h x (by simp)
    | cons y t2 =>
      rw [joinSep]
      apply chunkOk_str_append
      · apply chunkOk_str_append
        · exact h x (by simp)
        · decide
      · exact ih (fun z hz => h z (List.mem_cons_of_mem _ hz))

theorem chunkOk_headerLine (rows : List Row) : chunkOk (headerLine rows).data := by
  unfold headerLine
  repeat' apply chunkOk_str_append
  all_goals first
    | exact chunkOk_natStr _
    | decide

theorem chunkOk_toolSummaryLine (rows : List Row) (tool : String) :
    chunkOk (toolSummaryLine rows tool).data := by
  unfold toolSummaryLine
  repeat' apply chunkOk_str_append
  all_goals first
    | exact chunkOk_natStr _
    | exact chunkOk_esc _
    | decide

theorem chunkOk_renderRow (r : Row) : chunkOk (renderRow r).data := by
  unfold renderRow
  repeat' apply chunkOk_str_append
  all_goals first
    | exact chunkOk_esc _
    | decide
    | skip
  all_goals
    split
    all_goals first
      | (repeat' apply chunkOk_str_append
         all_goals first
           | exact chunkOk_esc _
           | decide)
      | decide

theorem chunkOk_sevEmoji (sev : String) : chunkOk (sevEmoji sev).data := by
  unfold sevEmoji
  repeat' split
  all_goals decide

theorem chunkOk_sevLabel (sev : String) : chunkOk (sevLabel sev).data := by
  unfold sevLabel
  repeat' split
  all_goals decide

theorem sevSection_chunkOk (rows : List Row) (tool sev : String) :
    ∀ x ∈ sevSection rows tool sev, chunkOk x.data := by
  intro x hx
  unfold sevSection at hx
  split at hx
  · cases hx
  · simp only [List.mem_append, List.mem_cons, List.not_mem_nil, or_false,
      List.mem_map] at hx
    rcases hx with ((rfl | rfl | rfl | rfl) | ⟨r, _, rfl⟩) | rfl
    · decide
    · repeat' apply chunkOk_str_append
      all_goals first
        | exact chunkOk_sevEmoji _
        | exact chunkOk_sevLabel _
        | exact chunkOk_natStr _
        | decide
    · decide
    · decide
    · exact chunkOk_renderRow r
    · decide

theorem outLines_chunkOk (rows : List Row) (title : String) :
    ∀ x ∈ outLines rows title, chunkOk x.data := by
  intro x hx
  unfold outLines at hx
  rcases List.mem_cons.mp hx with rfl | hx
  · apply chunkOk_str_append
    · apply chunkOk_str_append
      · decide
      · exact chunkOk_esc _
    · decide
  rcases List.mem_cons.mp hx with rfl | hx
  · exact chunkOk_headerLine rows
  obtain ⟨block, hblock, hxb⟩ := List.mem_flatten.mp hx
  obtain ⟨tool, _, rfl⟩ := List.mem_map.mp hblock
  unfold toolSection at hxb
  simp only [List.mem_append, List.mem_cons, List.not_mem_nil, or_false] at hxb
  rcases hxb with ((rfl | rfl) | hmid) | rfl
  · decide
  · exact chunkOk_toolSummaryLine rows tool
  · obtain ⟨sec, hsec, hxs⟩ := List.mem_flatten.mp hmid
    obtain ⟨sev, _, rfl⟩ := List.mem_map.mp hsec
    exact sevSection_chunkOk rows tool sev x hxs
  · decide

theorem escData_hasSub_escChar (l : List Char) (c : Char) (hc : c ∈ l) :
    hasSub (escChar c) (escData l) = true := by
  induction l with
  | nil => cases hc
  | cons a t ih =>
    rw [show a :: t = [a] ++ t from rfl, escData_append]
    rcases List.mem_cons.mp hc with rfl | hct
    · rw [escData_single]
      exact hasSub_append_left _ _ _ (hasSub_self _)
    · exact hasSub_append_right _ _ _ (ih hct)

theorem hasSub_of_isPre_pat (q p l : List Char) (hq : isPre q p = true)
    (h : hasSub p l = true) : hasSub q l = true := by
  rw [hasSub_iff] at h ⊢
  rw [isPre_iff] at hq
  exact hq.isInfix.trans h

theorem joinSep_hasSub_of_mem (xs : List String) (x : String) (hx : x ∈ xs) :
    hasSub x.data (joinSep "\n" xs).data = true := by
  induction xs with
  | nil => cases hx
  | cons a t ih =>
    cases t with
    | nil =>
      rcases List.mem_singleton.mp hx with rfl
      exact hasSub_self _
    | cons b t2 =>
      rw [joinSep]
      rcases List.mem_cons.mp hx with rfl | hx2
      · rw [String.data_append, String.data_append]
        exact hasSub_append_left _ _ _ (hasSub_append_left _ _ _ (hasSub_self _))
      · rw [String.data_append]
        exact hasSub_append_right _ _ _ (ih hx2)

theorem renderRow_hasSub_msg (r : Row) :
    hasSub (esc r.message).data (renderRow r).data = true := by
  unfold renderRow
  simp only [String.data_append]
  apply hasSub_append_left
  apply hasSub_append_left
  exact hasSub_append_right _ _ _ (hasSub_self _)

theorem renderRow_mem_outLines (rows : List Row) (title : String) (r : Row)
    (hr : r ∈ rows) (hl : r.level ∈ sevOrder) :
    renderRow r ∈ outLines rows title := by
  unfold outLines
  refine List.mem_cons_of_mem _ (List.mem_cons_of_mem _ ?_)
  apply List.mem_flatten.mpr
  refine ⟨toolSection rows r.tool, List.mem_map_of_mem _ ?_, ?_⟩
  · unfold toolsOf
    rw [mem_sortLe]
    exact mem_uniqFirst _ _ (List.mem_map_of_mem _ hr)
  · unfold toolSection
    have hmid : renderRow r ∈ ((sevOrder.map (sevSection rows r.tool)).flatten) := by
      apply List.mem_flatten.mpr
      refine ⟨sevSection rows r.tool r.level, List.mem_map_of_mem _ hl, ?_⟩
      unfold sevSection
      have hrf : r ∈ rows.filter (fun x => x.tool == r.tool && x.level == r.level) :=
        List.mem_filter.mpr ⟨hr, by simp⟩
      cases hie : (rows.filter (fun x => x.tool == r.tool && x.level == r.level)).isEmpty
      · rw [if_neg (by simp [hie])]
        refine List.mem_append.mpr (Or.inl ?_)
        refine List.mem_append.mpr (Or.inr ?_)
        exact List.mem_map_of_mem _ hrf
      · rw [List.isEmpty_iff] at hie
        rw [hie] at hrf
        cases hrf
    simp only [List.mem_append, List.mem_cons]
    tauto

/-- Claim C7: free-text fields are HTML-escaped before embedding — an
escaped field contains no markup delimiter characters at all, and a message
containing "<" or "&" appears with the inert entities "&lt;" / "&amp;"; the
rendered report never contains the active markup "<script>" whatever the
rows and title are, while the escaped form of every rendered finding's
message does occur in the output. -/
theorem claim_c7_escaping :
    (∀ s, '<' ∉ (esc s).data ∧ '>' ∉ (esc s).data) ∧
    (∀ s, '<' ∈ s.data → hasSub "&lt;".data (esc s).data = true) ∧
    (∀ s, '&' ∈ s.data → hasSub "&amp;".data (esc s).data = true) ∧
    (∀ rows title, hasSub "<script>".data (htmlFragmentReport rows title).data = false) ∧
    (∀ rows title r, r ∈ rows → r.level ∈ sevOrder →
      hasSub (esc r.message).data (htmlFragmentReport rows title).data = true) := by
  refine ⟨?_, ?_, ?_, ?_, ?_⟩
  · exact fun s => ⟨lt_not_mem_escData s.data, gt_not_mem_escData s.data⟩
  · intro s hs
    have h := escData_hasSub_escChar s.data '<' hs
    rw [show escChar '<' = "&lt;".data from rfl] at h
    exact h
  · intro s hs
    have h := escData_hasSub_escChar s.data '&' hs
    rw [show escChar '&' = "&amp;".data from rfl] at h
    exact h
  · intro rows title
    cases hs : hasSub "<script>".data (htmlFragmentReport rows title).data
    · rfl
    · exfalso
      have hsc : hasSub ['<', 's', 'c'] (htmlFragmentReport rows title).data = true :=
        hasSub_of_isPre_pat _ _ _ (by decide) hs
      have hok := chunkOk_joinSep (outLines rows title) (outLines_chunkOk rows title)
      unfold htmlFragmentReport at hsc
      rw [hok.1] at hsc
      cases hsc
  · intro rows title r hr hl
    exact hasSub_trans _ _ _ (renderRow_hasSub_msg r)
      (joinSep_hasSub_of_mem _ _ (renderRow_mem_outLines rows title r hr hl))

/-- Witness for claim C7 at one concrete finding carrying active markup in
its message. -/
theorem claim_c7_escaping_witness :
    hasSub "&lt;".data (esc "<script>alert(1)</script> & x").data = true ∧
    hasSub "&amp;".data (esc "<script>alert(1)</script> & x").data = true ∧
    hasSub (esc rowA.message).data (htmlFragmentReport [rowA] "T").data = true :=
  ⟨claim_c7_escaping.2.1 _ (by decide),
   claim_c7_escaping.2.2.1 _ (by decide),
   claim_c7_escaping.2.2.2.2 [rowA] "T" rowA (by simp) (by decide)⟩

/-- Witness for the amended claim C6 at the concrete region carrying
columns. -/
theorem claim_c6_region_amended_witness :
    ∃ p, extractLocation env0 colRegionRes = .ok (p, .num 12, "L12-L15") := by
  have h := (claim_c6_region_amended env0 "a.py"
    [("startLine", .num 12), ("endLine", .num 15), ("startColumn", .num 3),
     ("endColumn", .num 9)] (.num 12) (.num 15) rfl rfl).1 12 rfl
  rw [if_neg (by decide)] at h
  exact h

/-- Witness for claim C9 at a one-row list. -/
theorem claim_c9_digest_counts_witness :
    countLevel [rowA] "error" + countLevel [rowA] "warning" + countLevel [rowA] "note" +
      countLevel [rowA] "none" = ([rowA] : List Row).length :=
  (claim_c9_digest_counts [rowA] (fun r hr => by
    rcases List.mem_singleton.mp hr with rfl
    decide)).2.2
